import Mathlib

/-!
# Verification of `workout_whatsapp_notifier.py`

A shallow embedding of the workout-notifier program.  Python strings are
modelled as `List Char` (`Str`); Python lists as Lean lists; `dict`s as
association lists; fallible operations (index errors, division by zero,
raised exceptions) as `Option`/`Except`-style results.  Function and table
names mirror the Python source.
-/

set_option maxRecDepth 4000

/-- Python strings are modelled as lists of unicode characters. -/
abbrev Str := List Char

/-- Coerce a Lean string literal into the model type. -/
def S (s : String) : Str := s.toList

/-- The characters Python's `str.strip`/`rstrip` remove (ASCII whitespace;
the day labels and messages in this program contain none of the rarer
unicode spaces). -/
def isPySpace (c : Char) : Bool :=
  c = ' ' || c = '\t' || c = '\n' || c = '\r' || c = '\x0b' || c = '\x0c'

/-- Python `s.rstrip()`: drop trailing whitespace. -/
def rstrip (s : Str) : Str := (s.reverse.dropWhile isPySpace).reverse

/-- Python `s.lstrip()`: drop leading whitespace. -/
def lstrip (s : Str) : Str := s.dropWhile isPySpace

/-- Python `s.strip()`. -/
def pyStrip (s : Str) : Str := rstrip (lstrip s)

/-- Python `s.split(sep)` for a single-character separator `sep`:
non-overlapping, left to right; `"".split(sep) == [""]`. -/
def splitOnChar (sep : Char) : Str → List Str
  | [] => [[]]
  | c :: rest =>
    if c = sep then [] :: splitOnChar sep rest
    else
      match splitOnChar sep rest with
      | [] => [[c]]
      | h :: t => (c :: h) :: t

/-- Python `s.split("\n")`. -/
def splitN (s : Str) : List Str := splitOnChar '\n' s

/-- Python `s.split(",")`. -/
def splitComma (s : Str) : List Str := splitOnChar ',' s

/-- Python `s.split("\n\n")`: split on the two-character separator,
non-overlapping, left to right. -/
def splitNN : Str → List Str
  | [] => [[]]
  | [c] => [[c]]
  | c1 :: c2 :: rest =>
    if c1 = '\n' ∧ c2 = '\n' then [] :: splitNN rest
    else
      match splitNN (c2 :: rest) with
      | [] => [[c1]]
      | h :: t => (c1 :: h) :: t

/-- Python `sep.join(parts)`. -/
def joinSep (sep : Str) : List Str → Str
  | [] => []
  | [x] => x
  | x :: xs => x ++ sep ++ joinSep sep xs

/-- The blank-line separator `"\n\n"`. -/
def nn : Str := ['\n', '\n']

/-- Python's substring test `pat in s`. -/
def hasSub (pat : Str) : Str → Bool
  | [] => pat.isEmpty
  | c :: rest => pat.isPrefixOf (c :: rest) || hasSub pat rest

/-- Python `s.lower()` (per-character, as for the ASCII labels used here). -/
def pyLower (s : Str) : Str := s.map Char.toLower

/-- Python `str(n)` for a natural number: decimal digits.  Fuel-based so the
kernel can evaluate it. -/
def pyNatStrAux : Nat → Nat → Str
  | 0, _ => []
  | fuel + 1, n =>
    if n < 10 then [Nat.digitChar n]
    else pyNatStrAux fuel (n / 10) ++ [Nat.digitChar (n % 10)]

/-- Python `str(n)` for `n : Nat`. -/
def pyNatStr (n : Nat) : Str := pyNatStrAux (n + 1) n

/-- `dict.get(k, d)` over an association-list model of a Python dict. -/
def lookupD (k : Str) (m : List (Str × Str)) (d : Str) : Str :=
  match m with
  | [] => d
  | (k', v) :: rest => if k = k' then v else lookupD k rest d

/-- `dict.get(k)` (`None` when absent). -/
def lookupA (k : Str) (m : List (Str × Str)) : Option Str :=
  match m with
  | [] => none
  | (k', v) :: rest => if k = k' then some v else lookupA k rest

/-! ## `classify_day` (source lines 84–90) -/

/-- `classify_day`: case-insensitive substring match with priority
pull > push > legs > cardio, falling back to `"general"`. -/
def classify_day (day_name : Str) : Str :=
  let name := pyLower day_name
  if hasSub (S "pull") name then S "pull"
  else if hasSub (S "push") name then S "push"
  else if hasSub (S "leg") name || hasSub (S "legs") name then S "legs"
  else if hasSub (S "cardio") name then S "cardio"
  else S "general"

/-- The five category labels, in the order the counters dict lists them. -/
def cats5 : List Str := [S "pull", S "push", S "legs", S "cardio", S "general"]

/-! ## `chunk_message` (source lines 172–207) -/

/-- Loop body of the inner line-packing loop (source lines 189–195):
state is `(parts, block)`. -/
def lineStep (limit : Nat) (st : List Str × Str) (ln : Str) : List Str × Str :=
  let addl := ln ++ ['\n']
  if st.2.length + addl.length ≤ limit then (st.1, st.2 ++ addl)
  else (st.1 ++ [rstrip st.2], addl)

/-- Loop body of the paragraph loop (source lines 177–199):
state is `(parts, cur)`. -/
def chunkStep (limit : Nat) (st : List Str × Str) (p : Str) : List Str × Str :=
  let add := p ++ nn
  if st.2.length + add.length ≤ limit then (st.1, st.2 ++ add)
  else
    let parts1 := if st.2 ≠ [] then st.1 ++ [rstrip st.2] else st.1
    if limit < add.length then
      let lns := splitN (p ++ ['\n'])
      let st2 := lns.foldl (lineStep limit) (parts1, ([] : Str))
      let parts3 := if st2.2 ≠ [] then st2.1 ++ [rstrip st2.2] else st2.1
      (parts3, [])
    else (parts1, add)

/-- The parts accumulated by `chunk_message` before the part headers are
prefixed (source lines 174–201). -/
def chunk_parts (body : Str) (limit : Nat) : List Str :=
  let paras := splitNN body
  let st := paras.foldl (chunkStep limit) ([], [])
  if st.2 ≠ [] then st.1 ++ [rstrip st.2] else st.1

/-- The `"(Part {i}/{total})\n\n"` header prefixed to every part when more
than one part is produced (source line 206). -/
def mkHeader (i total : Nat) : Str :=
  S "(Part " ++ pyNatStr i ++ S "/" ++ pyNatStr total ++ S ")\n\n"

/-- `chunk_message(body, limit)` (source lines 172–207). -/
def chunk_message (body : Str) (limit : Nat) : List Str :=
  let parts := chunk_parts body limit
  if parts.length > 1 then
    parts.enum.map (fun ip => mkHeader (ip.1 + 1) parts.length ++ ip.2)
  else parts

/-! ## Link generators (source lines 121–127) -/

/-- Upper-case hexadecimal digit, as `urllib` uses in percent escapes. -/
def hexDigitChar (d : Nat) : Char := (S "0123456789ABCDEF").getD d '0'

/-- UTF-8 encoding of one unicode scalar value, as a list of byte values. -/
def utf8Bytes (c : Char) : List Nat :=
  let n := c.toNat
  if n < 0x80 then [n]
  else if n < 0x800 then [0xC0 + n / 64, 0x80 + n % 64]
  else if n < 0x10000 then [0xE0 + n / 4096, 0x80 + n / 64 % 64, 0x80 + n % 64]
  else [0xF0 + n / 262144, 0x80 + n / 4096 % 64, 0x80 + n / 64 % 64, 0x80 + n % 64]

/-- A character `urllib.parse.quote_plus` leaves unencoded. -/
def isUrlSafe (c : Char) : Bool :=
  c.isAlphanum && c.toNat < 128 || c = '_' || c = '.' || c = '-' || c = '~'

/-- Python `urllib.parse.quote_plus`: spaces become `+`, safe ASCII characters
pass through, everything else is percent-encoded byte-wise (UTF-8). -/
def quote_plus (s : Str) : Str :=
  s.flatMap fun c =>
    if c = ' ' then ['+']
    else if isUrlSafe c then [c]
    else (utf8Bytes c).flatMap fun b => ['%', hexDigitChar (b / 16), hexDigitChar (b % 16)]

/-- `google_exercise_link` (source lines 121–123). -/
def google_exercise_link (ex : Str) : Str :=
  S "https://www.google.com/search?q=" ++ quote_plus (S "site:musclewiki.com " ++ ex)

/-- `google_ref_link` (source lines 125–127). -/
def google_ref_link (term suffix : Str) : Str :=
  S "https://www.google.com/search?q=" ++ quote_plus (term ++ [' '] ++ suffix)

/-! ## Fixed lookup tables (source lines 26–82) -/

/-- `FORM_CUES` (source lines 26–44). -/
def FORM_CUES : List (Str × Str) :=
  [(S "Seated Cable Rows", S "Back straight, squeeze shoulder blades."),
   (S "Lat Pulldown", S "Chest up; pull bar to upper chest; no swing."),
   (S "DB Bent-Over Row", S "Hinge hips, neutral spine, pull to waist."),
   (S "Dumbbell Bicep Curls", S "Elbows tucked; no swing."),
   (S "Face Pulls", S "Lead with elbows; rope to forehead."),
   (S "Dumbbell Shoulder Press", S "No back arch; smooth press."),
   (S "Dumbbell Bench Press", S "Lower to chest; don’t flare elbows."),
   (S "Push Up", S "Straight line; don’t sag hips."),
   (S "Squat", S "Chest tall; knees out; hips back."),
   (S "Leg Press", S "Feet shoulder-width; full control."),
   (S "Lunge", S "Step forward; knee over ankle."),
   (S "Romanian Deadlift", S "Soft knees; hinge; hamstring stretch."),
   (S "Plank", S "Hips level; brace core."),
   (S "Side Plank", S "Stack shoulders & hips."),
   (S "Kettlebell Swings", S "Hinge; snap glutes; don’t squat."),
   (S "DB Thrusters", S "Full squat then press overhead."),
   (S "Jump Rope", S "Light bounce; upright.")]

/-- One entry of `EXERCISE_PRESCRIPTIONS`.  Integer `sets` values render via
`str()` in the f-strings, so they are stored here already as decimal text. -/
structure Prescription where
  sets : Str
  reps : Str
  rest : Str
deriving DecidableEq

/-- `EXERCISE_PRESCRIPTIONS` (source lines 47–65). -/
def EXERCISE_PRESCRIPTIONS : List (Str × Prescription) :=
  [(S "Seated Cable Rows", ⟨S "3", S "10–12", S "60–90s"⟩),
   (S "Lat Pulldown", ⟨S "3", S "10–12", S "60–90s"⟩),
   (S "DB Bent-Over Row", ⟨S "3", S "10–12", S "60–90s"⟩),
   (S "Dumbbell Bicep Curls", ⟨S "3", S "12–15", S "45s"⟩),
   (S "Face Pulls", ⟨S "3", S "12–15", S "45s"⟩),
   (S "Dumbbell Shoulder Press", ⟨S "3", S "10–12", S "60s"⟩),
   (S "Dumbbell Bench Press", ⟨S "3", S "10–12", S "60–90s"⟩),
   (S "Push Up", ⟨S "3", S "10–15", S "45–60s"⟩),
   (S "Squat", ⟨S "3", S "10–12", S "90s"⟩),
   (S "Leg Press", ⟨S "3", S "10–12", S "90s"⟩),
   (S "Lunge", ⟨S "3", S "10/leg", S "60s"⟩),
   (S "Romanian Deadlift", ⟨S "3", S "10–12", S "90s"⟩),
   (S "Plank", ⟨S "3", S "30–45s hold", S "30s"⟩),
   (S "Side Plank", ⟨S "3", S "20–30s/side", S "30s"⟩),
   (S "Kettlebell Swings", ⟨S "EMOM", S "10 reps/min", S "balance of min"⟩),
   (S "DB Thrusters", ⟨S "EMOM", S "8 reps/min", S "balance of min"⟩),
   (S "Jump Rope", ⟨S "EMOM", S "20 skips/min", S "balance of min"⟩)]

/-- `dict.get` over the prescriptions table. -/
def lookupP (k : Str) (m : List (Str × Prescription)) : Option Prescription :=
  match m with
  | [] => none
  | (k', v) :: rest => if k = k' then some v else lookupP k rest

/-- `WARMUPS` (source lines 68–74). -/
def WARMUPS : List (Str × List Str) :=
  [(S "pull", [S "Arm Circles", S "Cat–Cow"]),
   (S "push", [S "Arm Circles", S "Doorway Chest Stretch"]),
   (S "legs", [S "Standing Quad Stretch", S "Hamstring Stretch"]),
   (S "cardio", [S "Arm Circles", S "Standing Quad Stretch"]),
   (S "general", [S "Arm Circles", S "Cat–Cow"])]

/-- `COOLDOWNS` (source lines 76–82). -/
def COOLDOWNS : List (Str × List Str) :=
  [(S "pull", [S "Child’s pose", S "Hamstring Stretch"]),
   (S "push", [S "Doorway Chest Stretch", S "Child’s pose"]),
   (S "legs", [S "Standing Quad Stretch", S "Hamstring Stretch", S "Figure-4 Stretch"]),
   (S "cardio", [S "Child’s pose", S "Hamstring Stretch"]),
   (S "general", [S "Child’s pose", S "Hamstring Stretch"])]

/-- `dict.get` with default over the warm-up/cool-down tables. -/
def lookupL (k : Str) (m : List (Str × List Str)) (d : List Str) : List Str :=
  match m with
  | [] => d
  | (k', v) :: rest => if k = k' then v else lookupL k rest d

/-! ## Plan rows, `ordered_unique_days`, `build_alias_map`
(source lines 92–119) -/

/-- One row of the loaded plan table.  The `Day` cell may be missing
(`NaN`, dropped by `dropna`); the text cells are modelled as strings, with
a missing optional column read back as `""` (`r.get(col, "")`). -/
structure PlanRow where
  day : Option Str
  exercise : Str
  primary : Str
  secondary : Str
  tertiary : Str

/-- First-seen-order deduplication (the `seen` set / `out` list loop of
`ordered_unique_days`, source lines 98–103). -/
def dedupeAux (seen : List Str) : List Str → List Str
  | [] => []
  | d :: ds => if d ∈ seen then dedupeAux seen ds else d :: dedupeAux (d :: seen) ds

/-- `ordered_unique_days` applied to the `Day` column (source lines 97–104):
drop missing values, keep first occurrences in order. -/
def ordered_unique_days (col : List (Option Str)) : List Str :=
  dedupeAux [] (col.filterMap id)

/-- Pointwise update of the per-category counters dict. -/
def bumpCount (counts : Str → Nat) (t : Str) (v : Nat) : Str → Nat :=
  fun t' => if t' = t then v else counts t'

/-- The loop of `build_alias_map` (source lines 111–118): state is the
counters dict, the `alias_to_day` dict (as an insertion-ordered association
list — all keys inserted are distinct, as proved below) and the `rows` list. -/
def buildAliasAux (counts : Str → Nat) (a2d rows : List (Str × Str)) :
    List Str → List (Str × Str) × List (Str × Str)
  | [] => (a2d, rows)
  | d :: ds =>
    let typ := classify_day d
    let c := counts typ + 1
    let al := typ ++ pyNatStr c
    let a2d' := (a2d ++ [(al, d)]) ++ (if c = 1 then [(typ, d)] else [])
    buildAliasAux (bumpCount counts typ c) a2d' (rows ++ [(al, d)]) ds

/-- `build_alias_map` (source lines 106–119), taking the plan's `Day`
column. -/
def build_alias_map (col : List (Option Str)) :
    List (Str × Str) × List (Str × Str) :=
  buildAliasAux (fun _ => 0) [] [] (ordered_unique_days col)

/-! ## `build_message_for_day` (source lines 129–170) -/

/-- The main-workout entry rendered for one plan row
(loop body, source lines 137–151). -/
def entryForRow (r : PlanRow) : Str :=
  let ex := pyStrip r.exercise
  let url := google_exercise_link ex
  let cue := lookupD ex FORM_CUES []
  let d1 := S "- *" ++ ex ++ S "*\n  " ++ url ++ S "\n  Primary: " ++ r.primary
  let d2 := if r.secondary ≠ [] then d1 ++ S " | Secondary: " ++ r.secondary else d1
  let d3 := if r.tertiary ≠ [] then d2 ++ S " | Tertiary: " ++ r.tertiary else d2
  let d4 := if cue ≠ [] then d3 ++ S "\n  Form Cue: " ++ cue else d3
  match lookupP ex EXERCISE_PRESCRIPTIONS with
  | some p =>
      d4 ++ S "\n  Prescription: " ++ p.sets ++ S " × " ++ p.reps
         ++ S " | Rest: " ++ p.rest
  | none => d4

/-- A fixed cardio entry (loop body of the cardio override,
source lines 155–161). -/
def cardioEntry (ex : Str) : Str :=
  let url := google_exercise_link ex
  let cue := lookupD ex FORM_CUES []
  let pres_str :=
    match lookupP ex EXERCISE_PRESCRIPTIONS with
    | some p => p.sets ++ S " × " ++ p.reps ++ S " | Rest: " ++ p.rest
    | none => []
  S "- *" ++ ex ++ S "*\n  " ++ url ++ S "\n  Form Cue: " ++ cue
    ++ S "\n  Prescription: " ++ pres_str

/-- The `lines` list of `build_message_for_day` after the cardio override
(source lines 136–161). -/
def mainLines (df : List PlanRow) (day : Str) : List Str :=
  let sub := df.filter (fun r => r.day = some day)
  let typ := classify_day day
  let lines := sub.map entryForRow
  if typ = S "cardio" then
    [cardioEntry (S "Kettlebell Swings"), cardioEntry (S "DB Thrusters"),
     cardioEntry (S "Jump Rope")]
  else lines

/-- `build_message_for_day` (source lines 129–170). -/
def build_message_for_day (df : List PlanRow) (day : Str) : Str :=
  let typ := classify_day day
  let warm := (lookupL typ WARMUPS (lookupL (S "general") WARMUPS [])).map
    (fun w => S "• " ++ w ++ S "\n  " ++ google_ref_link w (S "warm up"))
  let cool := (lookupL typ COOLDOWNS (lookupL (S "general") COOLDOWNS [])).map
    (fun c => S "• " ++ c ++ S "\n  " ++ google_ref_link c (S "stretch"))
  S "📅 *" ++ day ++ S "*\n\n"
    ++ S "🔥 *Warm-up*\n" ++ joinSep ['\n'] warm ++ S "\n\n"
    ++ S "🏋️ *Main Workout*\n" ++ joinSep ['\n'] (mainLines df day) ++ S "\n\n"
    ++ S "🧊 *Cool-down*\n" ++ joinSep ['\n'] cool ++ S "\n\n"
    ++ S "Reply *DONE* when finished 💪"

/-! ## `pick_day_for_today` (source lines 209–219) -/

/-- The persisted `last_day.json` state. -/
structure RunState where
  last_day : Str
  rest_today : Bool
deriving DecidableEq

/-- `pick_day_for_today` (source lines 209–219).  The state file is passed
in as `fs` (`none` = file absent) and the result is
`(selected day, state file after the call)`.  For an empty `days` list the
very first statement `datetime.now().weekday() % len(days)` raises
`ZeroDivisionError`; that fault is modelled as `none`. -/
def pick_day_for_today (days : List Str) (weekday : Nat) (fs : Option RunState) :
    Option (Str × Option RunState) :=
  if h : days.length = 0 then none
  else
    let idx := weekday % days.length
    let dflt := days.get ⟨idx, Nat.mod_lt _ (Nat.pos_of_ne_zero h)⟩
    match fs with
    | some st =>
      if st.rest_today then some (st.last_day, some ⟨st.last_day, false⟩)
      else some (dflt, some st)
    | none => some (dflt, none)

/-! ## `send_whatsapp_parts` (source lines 221–233) -/

/-- The environment the sender reads (`.env` / process environment).
`none` models an unset variable. -/
structure TwilioEnv where
  sid : Option Str
  tok : Option Str
  from_num : Option Str
  to_list : Option Str

/-- Truthiness of `os.getenv(...)`: set and non-empty. -/
def envTruthy (o : Option Str) : Bool :=
  match o with
  | none => false
  | some s => !s.isEmpty

/-- The recipient list parsed from `WHATSAPP_TO_LIST`
(source line 226): split on commas, strip, drop empties. -/
def parseToList (raw : Str) : List Str :=
  ((splitComma raw).map pyStrip).filter (fun x => !x.isEmpty)

/-- `send_whatsapp_parts` (source lines 221–233).  The result is the ordered
list of message submissions `(recipient, body)` performed, paired with the
error raised (`RuntimeError("Missing Twilio creds in .env")`), if any; the
credential check precedes every send. -/
def send_whatsapp_parts (env : TwilioEnv) (parts : List Str) :
    List (Str × Str) × Option Str :=
  let to_list := parseToList (env.to_list.getD [])
  if !envTruthy env.sid || !envTruthy env.tok || to_list.isEmpty then
    ([], some (S "Missing Twilio creds in .env"))
  else
    (to_list.flatMap (fun rcpt => parts.map (fun part => (rcpt, part))), none)

/-! ## Support lemmas: `rstrip`, splitting and joining -/

lemma rstrip_nil : rstrip [] = [] := rfl

lemma rstrip_length_le (s : Str) : (rstrip s).length ≤ s.length := by
  simpa [rstrip] using (List.dropWhile_sublist (l := s.reverse) isPySpace).length_le

lemma mem_of_mem_rstrip {c : Char} {s : Str} (h : c ∈ rstrip s) : c ∈ s := by
  rw [rstrip, List.mem_reverse] at h
  exact List.mem_reverse.mp ((List.dropWhile_sublist isPySpace).mem h)

lemma rstrip_append_space (s : Str) {c : Char} (hc : isPySpace c = true) :
    rstrip (s ++ [c]) = rstrip s := by
  simp [rstrip, List.reverse_append, List.dropWhile_cons, hc]

lemma rstrip_append_newline (s : Str) : rstrip (s ++ ['\n']) = rstrip s :=
  rstrip_append_space s (by decide)

lemma rstrip_append_nn (s : Str) : rstrip (s ++ nn) = rstrip s := by
  have : s ++ nn = (s ++ ['\n']) ++ ['\n'] := by simp [nn]
  rw [this, rstrip_append_newline, rstrip_append_newline]

lemma rstrip_append_keep (s : Str) {p : Str} (hne : p ≠ []) (hp : rstrip p = p) :
    rstrip (s ++ p) = s ++ p := by
  have h1 : p.reverse.dropWhile isPySpace = p.reverse := by
    have := congrArg List.reverse hp
    simpa [rstrip] using this
  obtain ⟨c, t, hct⟩ : ∃ c t, p.reverse = c :: t := by
    cases hpr : p.reverse with
    | nil =>
      exfalso
      exact hne (by simpa using congrArg List.reverse hpr)
    | cons c t => exact ⟨c, t, rfl⟩
  have hc : isPySpace c = false := by
    by_contra hcc
    have hcc' : isPySpace c = true := by
      cases h : isPySpace c
      · exact absurd h hcc
      · rfl
    rw [hct, List.dropWhile_cons_of_pos hcc'] at h1
    have hlen := congrArg List.length h1
    have hle := (List.dropWhile_sublist (l := t) isPySpace).length_le
    simp at hlen
    omega
  have h2 : (s ++ p).reverse.dropWhile isPySpace = (s ++ p).reverse := by
    rw [List.reverse_append, hct, List.cons_append,
      List.dropWhile_cons_of_neg (by simp [hc])]
  rw [rstrip, h2, List.reverse_reverse]

lemma splitOnChar_ne_nil (sep : Char) (s : Str) : splitOnChar sep s ≠ [] := by
  induction s with
  | nil => simp [splitOnChar]
  | cons c rest ih =>
    unfold splitOnChar
    by_cases hc : c = sep
    · simp [hc]
    · rcases h : splitOnChar sep rest with _ | ⟨hd, tl⟩ <;> simp [hc, h]

lemma splitOnChar_sep_not_mem (sep : Char) (s : Str) :
    ∀ p ∈ splitOnChar sep s, sep ∉ p := by
  induction s with
  | nil =>
    intro p hp
    simp [splitOnChar] at hp
    simp [hp]
  | cons c rest ih =>
    intro p hp
    unfold splitOnChar at hp
    by_cases hc : c = sep
    · simp [hc] at hp
      rcases hp with hp | hp
      · simp [hp]
      · exact ih p hp
    · rcases h : splitOnChar sep rest with _ | ⟨hd, tl⟩
      · simp [hc, h] at hp
        simp [hp]
        exact fun hcc => hc hcc.symm
      · simp [hc, h] at hp
        rcases hp with hp | hp
        · subst hp
          intro hmem
          rcases List.mem_cons.mp hmem with h1 | h1
          · exact hc h1.symm
          · exact ih hd (by simp [h]) h1
        · exact ih p (by simp [h, hp])

lemma joinSep_splitOnChar (sep : Char) (s : Str) :
    joinSep [sep] (splitOnChar sep s) = s := by
  induction s with
  | nil => simp [splitOnChar, joinSep]
  | cons c rest ih =>
    unfold splitOnChar
    by_cases hc : c = sep
    · simp only [hc, if_pos rfl]
      rcases h : splitOnChar sep rest with _ | ⟨hd, tl⟩
      · exact absurd h (splitOnChar_ne_nil sep rest)
      · rw [h] at ih
        simp [joinSep, ← ih]
    · rcases h : splitOnChar sep rest with _ | ⟨hd, tl⟩
      · exact absurd h (splitOnChar_ne_nil sep rest)
      · rw [h] at ih
        simp only [if_neg hc]
        cases tl with
        | nil => simp_all [joinSep]
        | cons x xs => simp_all [joinSep]

lemma splitOnChar_single {sep : Char} {s : Str} (h : sep ∉ s) :
    splitOnChar sep s = [s] := by
  induction s with
  | nil => simp [splitOnChar]
  | cons c rest ih =>
    have hc : ¬ c = sep := fun hcc => h (by simp [hcc])
    have hrest : sep ∉ rest := fun hm => h (by simp [hm])
    unfold splitOnChar
    simp [hc, ih hrest]

lemma splitOnChar_append_sep {sep : Char} {a : Str} (b : Str) (h : sep ∉ a) :
    splitOnChar sep (a ++ sep :: b) = a :: splitOnChar sep b := by
  induction a with
  | nil =>
    simp only [List.nil_append]
    conv_lhs => rw [splitOnChar]
    simp
  | cons c rest ih =>
    have hc : ¬ c = sep := fun hcc => h (by simp [hcc])
    have hrest : sep ∉ rest := fun hm => h (by simp [hm])
    conv_lhs => rw [List.cons_append, splitOnChar]
    rw [if_neg hc, ih hrest]

lemma splitN_single {s : Str} (h : '\n' ∉ s) : splitN s = [s] :=
  splitOnChar_single h

lemma splitN_append_newline {s : Str} (h : '\n' ∉ s) :
    splitN (s ++ ['\n']) = [s, []] := by
  have : s ++ ['\n'] = s ++ '\n' :: ([] : Str) := rfl
  rw [splitN, this, splitOnChar_append_sep _ h]
  rfl

lemma splitNN_ne_nil (s : Str) : splitNN s ≠ [] := by
  induction s using splitNN.induct with
  | case1 => simp [splitNN]
  | case2 c => simp [splitNN]
  | case3 c1 c2 rest h ih =>
    obtain ⟨h1, h2⟩ := h
    subst h1; subst h2
    simp [splitNN]
  | case4 c1 c2 rest h hs ih => exact absurd hs ih
  | case5 c1 c2 rest h hd tl hs ih =>
    conv_lhs => rw [splitNN]
    rw [if_neg h, hs]
    simp

lemma joinSep_splitNN (s : Str) : joinSep nn (splitNN s) = s := by
  induction s using splitNN.induct with
  | case1 => simp [splitNN, joinSep]
  | case2 c => simp [splitNN, joinSep]
  | case3 c1 c2 rest h ih =>
    obtain ⟨h1, h2⟩ := h
    subst h1; subst h2
    rcases hs : splitNN rest with _ | ⟨hd, tl⟩
    · exact absurd hs (splitNN_ne_nil rest)
    · rw [hs] at ih
      conv_lhs => rw [splitNN]
      rw [if_pos ⟨rfl, rfl⟩, hs]
      simp only [joinSep, nn] at ih ⊢
      rw [← ih]
      simp
  | case4 c1 c2 rest h hs ih => exact absurd hs (splitNN_ne_nil _)
  | case5 c1 c2 rest h hd tl hs ih =>
    rw [hs] at ih
    conv_lhs => rw [splitNN]
    rw [if_neg h, hs]
    cases tl with
    | nil => simp_all [joinSep]
    | cons x xs => simp_all [joinSep]

lemma splitNN_single {s : Str} (h : '\n' ∉ s) : splitNN s = [s] := by
  induction s using splitNN.induct with
  | case1 => simp [splitNN]
  | case2 c => simp [splitNN]
  | case3 c1 c2 rest hc ih =>
    exfalso
    exact h (by simp [hc.1])
  | case4 c1 c2 rest hc hs ih =>
    have hrest : '\n' ∉ c2 :: rest := by
      intro hm
      exact h (List.mem_cons_of_mem c1 hm)
    rw [ih hrest] at hs
    exact absurd hs (by simp)
  | case5 c1 c2 rest hc hd tl hs ih =>
    have hrest : '\n' ∉ c2 :: rest := by
      intro hm
      exact h (List.mem_cons_of_mem c1 hm)
    have h2 := ih hrest
    rw [hs] at h2
    injection h2 with h21 h22
    subst h21; subst h22
    conv_lhs => rw [splitNN]
    rw [if_neg hc, hs]

/-! ## Claim C6: day classification -/

/-- A shared helper: the classifier always lands in the five categories. -/
lemma classify_day_mem_cats5 (d : Str) : classify_day d ∈ cats5 := by
  cases h1 : hasSub (S "pull") (pyLower d) <;>
    cases h2 : hasSub (S "push") (pyLower d) <;>
    cases h3 : hasSub (S "leg") (pyLower d) <;>
    cases h4 : hasSub (S "legs") (pyLower d) <;>
    cases h5 : hasSub (S "cardio") (pyLower d) <;>
    simp [classify_day, cats5, h1, h2, h3, h4, h5]

/-- C6: classification is total and returns exactly one of
pull/push/legs/cardio/general, decided by case-insensitive substring
matching in the fixed priority order pull > push > legs (matching on
"leg" or "legs") > cardio, with `"general"` when nothing matches;
the first matching rule wins. -/
theorem classify_day_total_priority (day : Str) :
    classify_day day ∈ cats5
    ∧ (classify_day day = S "pull" ↔ hasSub (S "pull") (pyLower day) = true)
    ∧ (classify_day day = S "push" ↔
        (hasSub (S "pull") (pyLower day) = false ∧ hasSub (S "push") (pyLower day) = true))
    ∧ (classify_day day = S "legs" ↔
        (hasSub (S "pull") (pyLower day) = false ∧ hasSub (S "push") (pyLower day) = false
          ∧ (hasSub (S "leg") (pyLower day) = true ∨ hasSub (S "legs") (pyLower day) = true)))
    ∧ (classify_day day = S "cardio" ↔
        (hasSub (S "pull") (pyLower day) = false ∧ hasSub (S "push") (pyLower day) = false
          ∧ hasSub (S "leg") (pyLower day) = false ∧ hasSub (S "legs") (pyLower day) = false
          ∧ hasSub (S "cardio") (pyLower day) = true))
    ∧ (classify_day day = S "general" ↔
        (hasSub (S "pull") (pyLower day) = false ∧ hasSub (S "push") (pyLower day) = false
          ∧ hasSub (S "leg") (pyLower day) = false ∧ hasSub (S "legs") (pyLower day) = false
          ∧ hasSub (S "cardio") (pyLower day) = false)) := by
  refine ⟨classify_day_mem_cats5 day, ?_⟩
  cases h1 : hasSub (S "pull") (pyLower day) <;>
    cases h2 : hasSub (S "push") (pyLower day) <;>
    cases h3 : hasSub (S "leg") (pyLower day) <;>
    cases h4 : hasSub (S "legs") (pyLower day) <;>
    cases h5 : hasSub (S "cardio") (pyLower day) <;>
    simp only [classify_day, h1, h2, h3, h4, h5, Bool.false_or, Bool.true_or,
      Bool.or_self, if_true, if_false] <;>
    refine ⟨by decide, by decide, by decide, by decide, by decide⟩

/-- C6 witness at a concrete label. -/
theorem classify_day_total_priority_witness :
    classify_day (S "LEG day") ∈ cats5
    ∧ (classify_day (S "LEG day") = S "legs" ↔
        (hasSub (S "pull") (pyLower (S "LEG day")) = false
          ∧ hasSub (S "push") (pyLower (S "LEG day")) = false
          ∧ (hasSub (S "leg") (pyLower (S "LEG day")) = true
              ∨ hasSub (S "legs") (pyLower (S "LEG day")) = true))) :=
  ⟨(classify_day_total_priority (S "LEG day")).1,
   (classify_day_total_priority (S "LEG day")).2.2.2.1⟩

/-! ## Claim C10: the day selector needs a non-empty day list -/

/-- C10: the default selection `weekday % len(days)` divides by zero on an
empty day list (modelled as `none`); with any non-empty list the selector
always succeeds; and a `Day` column whose cells are all missing yields the
empty unique-day list. -/
theorem pick_day_requires_nonempty :
    (∀ (weekday : Nat) (fs : Option RunState),
        pick_day_for_today [] weekday fs = none)
    ∧ (∀ (days : List Str) (weekday : Nat) (fs : Option RunState),
        days ≠ [] → (pick_day_for_today days weekday fs).isSome = true)
    ∧ (∀ col : List (Option Str), (∀ x ∈ col, x = none) →
        ordered_unique_days col = []) := by
  refine ⟨fun wd fs => ?_, fun days wd fs hne => ?_, fun col hcol => ?_⟩
  · simp [pick_day_for_today]
  · unfold pick_day_for_today
    rw [dif_neg (fun h => hne (List.length_eq_zero.mp h))]
    cases fs with
    | none => simp
    | some st => cases hst : st.rest_today <;> simp [hst]
  · unfold ordered_unique_days
    have h : col.filterMap id = [] := by
      rw [List.filterMap_eq_nil_iff]
      intro a ha
      simp [hcol a ha]
    rw [h]
    rfl

/-- C10 witness: the empty plan faults, a 1-day plan does not, and an
all-missing column produces the empty day list. -/
theorem pick_day_requires_nonempty_witness :
    pick_day_for_today [] 3 none = none
    ∧ (pick_day_for_today [S "a"] 3 none).isSome = true
    ∧ ordered_unique_days [none, none] = [] :=
  ⟨pick_day_requires_nonempty.1 3 none,
   pick_day_requires_nonempty.2.1 [S "a"] 3 none (by simp [S]),
   pick_day_requires_nonempty.2.2 [none, none] (by simp)⟩

/-! ## Claim C4: day selection and the one-shot rest override -/

lemma getD_eq_get (l : List Str) (i : Nat) (h : i < l.length) :
    l.getD i [] = l.get ⟨i, h⟩ := by
  simp [List.getD, List.getElem?_eq_getElem h]

/-- C4: with no state file (or `rest_today` false) the selector returns
`days[weekday % len(days)]` and leaves the state alone; with `rest_today`
true it returns the persisted `last_day` and rewrites the state with
`rest_today` false, so a second consecutive run falls back to the
weekday-indexed default. -/
theorem pick_day_spec (days : List Str) (weekday : Nat) (st : RunState)
    (hne : days ≠ []) :
    pick_day_for_today days weekday none
        = some (days.getD (weekday % days.length) [], none)
    ∧ (st.rest_today = false →
        pick_day_for_today days weekday (some st)
          = some (days.getD (weekday % days.length) [], some st))
    ∧ (st.rest_today = true →
        pick_day_for_today days weekday (some st)
            = some (st.last_day, some ⟨st.last_day, false⟩)
          ∧ ∀ weekday2 : Nat,
              pick_day_for_today days weekday2 (some ⟨st.last_day, false⟩)
                = some (days.getD (weekday2 % days.length) [], some ⟨st.last_day, false⟩)) := by
  have hlen : ¬ days.length = 0 := fun h => hne (List.length_eq_zero.mp h)
  refine ⟨?_, fun hf => ?_, fun ht => ⟨?_, fun wd2 => ?_⟩⟩
  · unfold pick_day_for_today
    rw [dif_neg hlen, getD_eq_get days _ (Nat.mod_lt _ (Nat.pos_of_ne_zero hlen))]
  · unfold pick_day_for_today
    rw [dif_neg hlen, getD_eq_get days _ (Nat.mod_lt _ (Nat.pos_of_ne_zero hlen))]
    simp [hf]
  · unfold pick_day_for_today
    rw [dif_neg hlen]
    simp [ht]
  · unfold pick_day_for_today
    rw [dif_neg hlen, getD_eq_get days _ (Nat.mod_lt _ (Nat.pos_of_ne_zero hlen))]
    simp

/-- C4 witness: the spec scenario (weekday index 2, 5 unique days;
then a persisted `{last_day: "Push Day", rest_today: true}`). -/
theorem pick_day_spec_witness :
    pick_day_for_today [S "d0", S "d1", S "d2", S "d3", S "d4"] 2 none
        = some (S "d2", none)
    ∧ (pick_day_for_today [S "d0", S "d1", S "d2", S "d3", S "d4"] 2
          (some ⟨S "Push Day", true⟩)
        = some (S "Push Day", some ⟨S "Push Day", false⟩)) := by
  have h := pick_day_spec [S "d0", S "d1", S "d2", S "d3", S "d4"] 2
    ⟨S "Push Day", true⟩ (by simp [S])
  exact ⟨by rw [h.1]; rfl, by rw [(h.2.2 rfl).1]⟩

/-! ## Claim C9: the delivery client's credential check -/

/-- C9: the sender raises `RuntimeError("Missing Twilio creds in .env")`
exactly when the account SID, the auth token, or the parsed recipient list
is absent/empty, and when it raises, no message is submitted; the recipient
list is empty exactly when every comma field of `WHATSAPP_TO_LIST` strips
to nothing. -/
theorem send_whatsapp_auth (env : TwilioEnv) (parts : List Str) :
    ((send_whatsapp_parts env parts).2.isSome = true ↔
      (envTruthy env.sid = false ∨ envTruthy env.tok = false
        ∨ parseToList (env.to_list.getD []) = []))
    ∧ ((send_whatsapp_parts env parts).2.isSome = true →
        (send_whatsapp_parts env parts).1 = [])
    ∧ (envTruthy env.sid = false ↔ (env.sid = none ∨ env.sid = some []))
    ∧ (parseToList (env.to_list.getD []) = [] ↔
        ∀ x ∈ splitComma (env.to_list.getD []), pyStrip x = []) := by
  have henv : ∀ o : Option Str, (envTruthy o = false ↔ (o = none ∨ o = some [])) := by
    intro o
    cases o with
    | none => simp [envTruthy]
    | some s => simp [envTruthy, List.isEmpty_iff]
  have hparse : ∀ raw : Str,
      (parseToList raw = [] ↔ ∀ x ∈ splitComma raw, pyStrip x = []) := by
    intro raw
    unfold parseToList
    rw [List.filter_eq_nil_iff]
    constructor
    · intro h x hx
      have := h (pyStrip x) (List.mem_map_of_mem pyStrip hx)
      simpa [List.isEmpty_iff] using this
    · intro h y hy
      obtain ⟨x, hx, rfl⟩ := List.mem_map.mp hy
      simp [List.isEmpty_iff, h x hx]
  constructor
  · by_cases hcond : (!envTruthy env.sid || !envTruthy env.tok
        || (parseToList (env.to_list.getD [])).isEmpty) = true
    · unfold send_whatsapp_parts
      rw [if_pos hcond]
      simp only [Bool.or_eq_true, Bool.not_eq_true', List.isEmpty_iff] at hcond
      have hc : envTruthy env.sid = false ∨ envTruthy env.tok = false
          ∨ parseToList (env.to_list.getD []) = [] := by tauto
      simp [hc]
    · unfold send_whatsapp_parts
      rw [if_neg hcond]
      simp only [Bool.or_eq_true, Bool.not_eq_true', List.isEmpty_iff] at hcond
      simp only [Option.isSome_none, Bool.false_eq_true, false_iff]
      tauto
  refine ⟨?_, henv env.sid, hparse (env.to_list.getD [])⟩
  · intro h
    unfold send_whatsapp_parts at h ⊢
    by_cases hcond : (!envTruthy env.sid || !envTruthy env.tok
        || (parseToList (env.to_list.getD [])).isEmpty) = true
    · rw [if_pos hcond]
    · rw [if_neg hcond] at h
      simp at h

/-- C9 witness: a missing auth token raises and nothing is sent. -/
theorem send_whatsapp_auth_witness :
    (send_whatsapp_parts ⟨some (S "AC"), none, none, some (S "x")⟩ [S "p"]).2.isSome = true
    ∧ (send_whatsapp_parts ⟨some (S "AC"), none, none, some (S "x")⟩ [S "p"]).1 = [] :=
  ⟨(send_whatsapp_auth ⟨some (S "AC"), none, none, some (S "x")⟩ [S "p"]).1.mpr
      (Or.inr (Or.inl (by decide))),
   (send_whatsapp_auth ⟨some (S "AC"), none, none, some (S "x")⟩ [S "p"]).2.1 (by decide)⟩

/-! ## Claim C1: the chunking size bound -/

/-- Generic fold invariant. -/
lemma foldl_inv {α β : Type} {f : β → α → β} {I : β → Prop} {P : α → Prop}
    (step : ∀ b a, I b → P a → I (f b a)) :
    ∀ (l : List α) (b : β), (∀ a ∈ l, P a) → I b → I (l.foldl f b) := by
  intro l
  induction l with
  | nil => intro b _ hb; simpa
  | cons a t ih =>
    intro b hl hb
    simp only [List.foldl_cons]
    exact ih _ (fun x hx => hl x (List.mem_cons_of_mem a hx))
      (step b a hb (hl a (List.mem_cons_self a t)))

/-- A flushed part either obeys the limit or is a single (newline-free)
oversized line. -/
def SizeOk (limit : Nat) (p : Str) : Prop :=
  p.length ≤ limit ∨ ('\n' ∉ p ∧ limit < p.length)

/-- The inner loop's `block` is either within the limit or exactly one
newline-free line plus its separator. -/
def BlockOk (limit : Nat) (b : Str) : Prop :=
  b.length ≤ limit ∨ ∃ ln : Str, b = ln ++ ['\n'] ∧ '\n' ∉ ln

lemma sizeOk_rstrip_of_le {limit : Nat} {s : Str} (h : s.length ≤ limit) :
    SizeOk limit (rstrip s) :=
  Or.inl (le_trans (rstrip_length_le s) h)

lemma sizeOk_rstrip_of_blockOk {limit : Nat} {b : Str} (h : BlockOk limit b) :
    SizeOk limit (rstrip b) := by
  rcases h with h | ⟨ln, rfl, hln⟩
  · exact sizeOk_rstrip_of_le h
  · rw [rstrip_append_newline]
    rcases le_or_lt (rstrip ln).length limit with hle | hgt
    · exact Or.inl hle
    · exact Or.inr ⟨fun hm => hln (mem_of_mem_rstrip hm), hgt⟩

/-- Invariant of the inner line loop. -/
def ILine (limit : Nat) (st : List Str × Str) : Prop :=
  (∀ q ∈ st.1, SizeOk limit q) ∧ BlockOk limit st.2

lemma lineStep_inv (limit : Nat) :
    ∀ (st : List Str × Str) (ln : Str), ILine limit st → '\n' ∉ ln →
      ILine limit (lineStep limit st ln) := by
  intro st ln ⟨hparts, hblock⟩ hln
  unfold lineStep
  by_cases hc : st.2.length + (ln ++ ['\n']).length ≤ limit
  · rw [if_pos hc]
    refine ⟨hparts, Or.inl ?_⟩
    simpa using hc
  · rw [if_neg hc]
    refine ⟨?_, Or.inr ⟨ln, rfl, hln⟩⟩
    intro q hq
    rcases List.mem_append.mp hq with hq | hq
    · exact hparts q hq
    · rw [List.mem_singleton.mp hq]
      exact sizeOk_rstrip_of_blockOk hblock

/-- Invariant of the outer paragraph loop. -/
def IChunk (limit : Nat) (st : List Str × Str) : Prop :=
  (∀ q ∈ st.1, SizeOk limit q) ∧ st.2.length ≤ limit

/-- Membership in a conditionally flushed parts list. -/
lemma mem_flush {parts : List Str} {cur q : Str}
    (hq : q ∈ (if cur ≠ [] then parts ++ [rstrip cur] else parts)) :
    q ∈ parts ∨ q = rstrip cur := by
  by_cases h : cur ≠ []
  · rw [if_pos h] at hq
    rcases List.mem_append.mp hq with hq | hq
    · exact Or.inl hq
    · exact Or.inr (List.mem_singleton.mp hq)
  · rw [if_neg h] at hq
    exact Or.inl hq

lemma chunkStep_inv (limit : Nat) :
    ∀ (st : List Str × Str) (p : Str), IChunk limit st →
      IChunk limit (chunkStep limit st p) := by
  intro st p ⟨hparts, hcur⟩
  unfold chunkStep
  by_cases hc : st.2.length + (p ++ nn).length ≤ limit
  · rw [if_pos hc]
    refine ⟨hparts, ?_⟩
    simpa using hc
  · rw [if_neg hc]
    have hparts1 : ∀ q ∈ (if st.2 ≠ [] then st.1 ++ [rstrip st.2] else st.1),
        SizeOk limit q := by
      intro q hq
      rcases mem_flush hq with hq | hq
      · exact hparts q hq
      · rw [hq]
        exact sizeOk_rstrip_of_le hcur
    by_cases hbig : limit < (p ++ nn).length
    · rw [if_pos hbig]
      have hlines : ∀ ln ∈ splitN (p ++ ['\n']), '\n' ∉ ln :=
        splitOnChar_sep_not_mem '\n' (p ++ ['\n'])
      have hst2 : ILine limit
          ((splitN (p ++ ['\n'])).foldl (lineStep limit)
            ((if st.2 ≠ [] then st.1 ++ [rstrip st.2] else st.1), ([] : Str))) := by
        refine foldl_inv (fun b a hb ha => lineStep_inv limit b a hb ha) _ _ hlines ?_
        exact ⟨hparts1, Or.inl (by simp)⟩
      constructor
      · intro q hq
        have hq2 : q ∈ (if ((splitN (p ++ ['\n'])).foldl (lineStep limit)
              ((if st.2 ≠ [] then st.1 ++ [rstrip st.2] else st.1), ([] : Str))).2 ≠ []
            then ((splitN (p ++ ['\n'])).foldl (lineStep limit)
              ((if st.2 ≠ [] then st.1 ++ [rstrip st.2] else st.1), ([] : Str))).1
              ++ [rstrip ((splitN (p ++ ['\n'])).foldl (lineStep limit)
                ((if st.2 ≠ [] then st.1 ++ [rstrip st.2] else st.1), ([] : Str))).2]
            else ((splitN (p ++ ['\n'])).foldl (lineStep limit)
              ((if st.2 ≠ [] then st.1 ++ [rstrip st.2] else st.1), ([] : Str))).1) := hq
        rcases mem_flush hq2 with hq3 | hq3
        · exact hst2.1 q hq3
        · rw [hq3]
          exact sizeOk_rstrip_of_blockOk hst2.2
      · show ([] : Str).length ≤ limit
        simp
    · rw [if_neg hbig]
      refine ⟨hparts1, ?_⟩
      show (p ++ nn).length ≤ limit
      omega

/-- Every accumulated part (before headers) obeys the bound or is a single
oversized line. -/
lemma chunk_parts_sizeOk (body : Str) (limit : Nat) :
    ∀ q ∈ chunk_parts body limit, SizeOk limit q := by
  have hfold : IChunk limit ((splitNN body).foldl (chunkStep limit) ([], [])) := by
    refine foldl_inv (P := fun _ => True)
      (fun b a hb _ => chunkStep_inv limit b a hb) _ _ (fun _ _ => trivial) ?_
    exact ⟨by simp, by simp⟩
  intro q hq
  unfold chunk_parts at hq
  by_cases hne : ((splitNN body).foldl (chunkStep limit) ([], [])).2 ≠ []
  · rw [if_pos hne] at hq
    rcases List.mem_append.mp hq with hq | hq
    · exact hfold.1 q hq
    · rw [List.mem_singleton.mp hq]
      exact sizeOk_rstrip_of_le hfold.2
  · rw [if_neg hne] at hq
    exact hfold.1 q hq

/-- C1 (amended): every returned part is a header (empty for a single-part
result) followed by a body; every body has length ≤ L except one that is a
single newline-free line longer than L.  The returned parts therefore
exceed L by at most the length of their `"(Part i/total)"` header line. -/
theorem chunk_size_bound (body : Str) (limit : Nat) :
    ∀ part ∈ chunk_message body limit, ∃ hdr b : Str,
      part = hdr ++ b
      ∧ (b.length ≤ limit ∨ ('\n' ∉ b ∧ limit < b.length))
      ∧ (hdr = [] ∨ ∃ i, hdr = mkHeader i (chunk_parts body limit).length) := by
  intro part hp
  unfold chunk_message at hp
  by_cases hlen : (chunk_parts body limit).length > 1
  · rw [if_pos hlen] at hp
    obtain ⟨ip, hip, rfl⟩ := List.mem_map.mp hp
    have hb : ip.2 ∈ chunk_parts body limit := List.snd_mem_of_mem_enum hip
    exact ⟨mkHeader (ip.1 + 1) (chunk_parts body limit).length, ip.2, rfl,
      chunk_parts_sizeOk body limit ip.2 hb, Or.inr ⟨ip.1 + 1, rfl⟩⟩
  · rw [if_neg hlen] at hp
    exact ⟨[], part, by simp, chunk_parts_sizeOk body limit part hp, Or.inl rfl⟩

/-- C1 witness: a concrete part of a two-part result decomposes as header
plus in-limit body. -/
theorem chunk_size_bound_witness :
    S "(Part 1/2)\n\naaaaaaaaaa" ∈ chunk_message (S "aaaaaaaaaa\n\nbbbbbbbbbb") 12
    ∧ ∃ hdr b : Str,
        S "(Part 1/2)\n\naaaaaaaaaa" = hdr ++ b
        ∧ (b.length ≤ 12 ∨ ('\n' ∉ b ∧ 12 < b.length))
        ∧ (hdr = [] ∨ ∃ i, hdr = mkHeader i (chunk_parts (S "aaaaaaaaaa\n\nbbbbbbbbbb") 12).length) :=
  ⟨by decide,
   chunk_size_bound (S "aaaaaaaaaa\n\nbbbbbbbbbb") 12 (S "(Part 1/2)\n\naaaaaaaaaa") (by decide)⟩

/-- C1 counterexample: as returned (headers included) the bound fails — at
limit 12 a returned part has length 22, yet every line of the blob fits in
the limit, so the oversized-line exception does not apply. -/
theorem chunk_size_bound_cex :
    ∃ part ∈ chunk_message (S "aaaaaaaaaa\n\nbbbbbbbbbb") 12,
      12 < part.length
      ∧ ∀ ln ∈ splitN (S "aaaaaaaaaa\n\nbbbbbbbbbb"), ln.length ≤ 12 := by
  decide

/-! ## Claim C3: a single oversized line -/

/-- C3 (amended): a blob that is one newline-free line longer than the
limit (with no trailing whitespace) is not truncated or split mid-line,
but the code returns THREE parts, not one: an empty-bodied part, the line
itself, and another empty-bodied part, each with its `(Part i/3)` header. -/
theorem oversized_line_three_parts (body : Str) (limit : Nat)
    (h1 : '\n' ∉ body) (h2 : rstrip body = body) (h3 : limit < body.length) :
    chunk_message body limit = [mkHeader 1 3, mkHeader 2 3 ++ body, mkHeader 3 3] := by
  have hr : rstrip ['\n'] = [] := by decide
  have e1 : lineStep limit ([], []) body = ([[]], body ++ ['\n']) := by
    simp only [lineStep]
    rw [if_neg (by simp; omega)]
    simp [rstrip_nil]
  have e2 : lineStep limit ([[]], body ++ ['\n']) [] = ([[], body], ['\n']) := by
    simp only [lineStep]
    rw [if_neg (by simp; omega)]
    simp [rstrip_append_newline, h2]
  have e3 : chunkStep limit ([], []) body = ([[], body, []], []) := by
    simp only [chunkStep]
    rw [if_neg (by simp [nn]; omega), if_pos (by simp [nn]; omega)]
    rw [splitN_append_newline h1]
    simp only [List.foldl_cons, List.foldl_nil, ne_eq, not_true_eq_false, if_false]
    rw [e1, e2]
    simp [hr]
  have e4 : chunk_parts body limit = [[], body, []] := by
    simp only [chunk_parts, splitNN_single h1, List.foldl_cons, List.foldl_nil, e3]
    simp
  unfold chunk_message
  rw [e4]
  simp [List.enum, List.enumFrom]

/-- C3 witness: a 4-character line with limit 2. -/
theorem oversized_line_three_parts_witness :
    chunk_message (S "aaaa") 2 = [mkHeader 1 3, mkHeader 2 3 ++ S "aaaa", mkHeader 3 3] :=
  oversized_line_three_parts (S "aaaa") 2 (by decide) (by decide) (by decide)

/-- C3 counterexample: for a blob that is one oversized line the chunker
produces three parts, not a single part holding that line. -/
theorem oversized_line_cex :
    '\n' ∉ S "aaaaaa" ∧ 3 < (S "aaaaaa").length
    ∧ (chunk_message (S "aaaaaa") 3).length = 3
    ∧ chunk_message (S "aaaaaa") 3
        = [S "(Part 1/3)\n\n", S "(Part 2/3)\n\naaaaaa", S "(Part 3/3)\n\n"] := by
  decide

/-! ## Claim C2: chunking round-trip -/

lemma joinSep_append_last (sep : Str) (xs : List Str) (a : Str) :
    joinSep sep (xs ++ [a]) = if xs = [] then a else joinSep sep xs ++ sep ++ a := by
  induction xs with
  | nil => simp [joinSep]
  | cons x t ih =>
    cases t with
    | nil => simp [joinSep]
    | cons y u =>
      rw [if_neg (by simp)]
      have hstep : joinSep sep ((x :: y :: u) ++ [a])
          = x ++ sep ++ joinSep sep ((y :: u) ++ [a]) := by
        simp [joinSep]
      rw [hstep, ih, if_neg (by simp)]
      simp [joinSep, List.append_assoc]

/-- A paragraph that chunks losslessly: non-empty, no trailing whitespace,
and within the limit together with its blank-line separator. -/
def ParaOk (limit : Nat) (p : Str) : Prop :=
  p ≠ [] ∧ rstrip p = p ∧ p.length + 2 ≤ limit

/-- Round-trip invariant of the paragraph loop: the flushed parts plus the
open accumulator always rejoin (with blank lines) to the paragraphs
processed so far. -/
def RInv (limit : Nat) (done : List Str) (st : List Str × Str) : Prop :=
  (done = [] ∧ st.1 = [] ∧ st.2 = [])
  ∨ (done ≠ [] ∧ ∃ c : Str, st.2 = c ++ nn ∧ rstrip c = c ∧ c ≠ []
      ∧ st.2.length ≤ limit ∧ joinSep nn (st.1 ++ [c]) = joinSep nn done)

lemma chunkStep_rinv (limit : Nat) (done : List Str) (st : List Str × Str) (p : Str)
    (hst : RInv limit done st) (hp : ParaOk limit p) :
    RInv limit (done ++ [p]) (chunkStep limit st p) := by
  obtain ⟨hne, hr, hlen2⟩ := hp
  have hpnn : (p ++ nn).length = p.length + 2 := by simp [nn]
  rcases st with ⟨parts, cur⟩
  rcases hst with ⟨hd0, hp0, hc0⟩ | ⟨hdne, c, hcur, hrc, hcne, hclen, hjoin⟩
  · simp only at hp0 hc0
    subst hd0; subst hp0; subst hc0
    unfold chunkStep
    rw [if_pos (by simp only [List.length_nil, Nat.zero_add]; omega)]
    refine Or.inr ⟨by simp, p, by simp, hr, hne, ?_, by simp [joinSep]⟩
    show (([] : Str) ++ (p ++ nn)).length ≤ limit
    simp only [List.nil_append]
    omega
  · simp only at hcur hjoin
    subst hcur
    have hR : joinSep nn (done ++ [p]) = joinSep nn done ++ nn ++ p := by
      rw [joinSep_append_last, if_neg hdne]
    unfold chunkStep
    by_cases hfits : (c ++ nn).length + (p ++ nn).length ≤ limit
    · rw [if_pos hfits]
      refine Or.inr ⟨by simp, (c ++ nn) ++ p, by simp [List.append_assoc], ?_, by simp [hne], ?_, ?_⟩
      · exact rstrip_append_keep (c ++ nn) hne hr
      · show ((c ++ nn) ++ (p ++ nn)).length ≤ limit
        simp only [List.length_append]
        simp only [List.length_append] at hfits
        omega
      · show joinSep nn (parts ++ [(c ++ nn) ++ p]) = joinSep nn (done ++ [p])
        rw [hR, joinSep_append_last]
        by_cases hpn : parts = []
        · rw [if_pos hpn]
          rw [hpn] at hjoin
          simp only [List.nil_append] at hjoin
          have hc2 : joinSep nn [c] = c := by simp [joinSep]
          rw [hc2] at hjoin
          rw [← hjoin]
        · rw [if_neg hpn]
          rw [joinSep_append_last, if_neg hpn] at hjoin
          rw [← hjoin]
          simp [List.append_assoc]
    · rw [if_neg hfits]
      have hcurne : c ++ nn ≠ [] := by simp [nn]
      rw [if_pos hcurne, if_neg (by omega)]
      have hrcur : rstrip (c ++ nn) = c := by rw [rstrip_append_nn, hrc]
      refine Or.inr ⟨by simp, p, rfl, hr, hne, ?_, ?_⟩
      · show (p ++ nn).length ≤ limit
        omega
      · show joinSep nn ((parts ++ [rstrip (c ++ nn)]) ++ [p]) = joinSep nn (done ++ [p])
        rw [hrcur, hR, joinSep_append_last nn (parts ++ [c]) p, if_neg (by simp), hjoin]

lemma chunkLoop_rinv (limit : Nat) :
    ∀ (ps done : List Str) (st : List Str × Str),
      RInv limit done st → (∀ p ∈ ps, ParaOk limit p) →
      RInv limit (done ++ ps) (ps.foldl (chunkStep limit) st) := by
  intro ps
  induction ps with
  | nil => intro done st h _; simpa
  | cons p t ih =>
    intro done st h hps
    have h1 := chunkStep_rinv limit done st p h (hps p (List.mem_cons_self p t))
    have h2 := ih (done ++ [p]) _ h1 (fun q hq => hps q (List.mem_cons_of_mem p hq))
    simpa [List.append_assoc] using h2

/-- C2 (amended): when every blank-line paragraph of the blob is non-empty,
free of trailing whitespace, and fits in the limit together with its
separator (so the line-splitting fallback never fires), joining the part
bodies with one blank line reconstructs the blob exactly; the returned
parts are those bodies, each prefixed by its header when more than one part
results. -/
theorem chunk_round_trip (body : Str) (limit : Nat)
    (hps : ∀ p ∈ splitNN body, p ≠ [] ∧ rstrip p = p ∧ p.length + 2 ≤ limit) :
    joinSep nn (chunk_parts body limit) = body
    ∧ chunk_message body limit
        = (if (chunk_parts body limit).length > 1
            then (chunk_parts body limit).enum.map
              (fun ip => mkHeader (ip.1 + 1) (chunk_parts body limit).length ++ ip.2)
            else chunk_parts body limit) := by
  refine ⟨?_, rfl⟩
  have h0 : RInv limit [] (([], []) : List Str × Str) := Or.inl ⟨rfl, rfl, rfl⟩
  have hfin := chunkLoop_rinv limit (splitNN body) [] ([], []) h0 hps
  rw [List.nil_append] at hfin
  simp only [chunk_parts]
  rcases hfin with ⟨hd0, _, _⟩ | ⟨hdne, c, hcur, hrc, hcne, hclen, hjoin⟩
  · exact absurd hd0 (splitNN_ne_nil body)
  · have hne2 : ((splitNN body).foldl (chunkStep limit) ([], [])).2 ≠ [] := by
      rw [hcur]; simp [nn]
    rw [if_pos hne2, hcur, rstrip_append_nn, hrc, hjoin, joinSep_splitNN]

/-- C2 witness: two 4-character paragraphs at limit 6 round-trip. -/
theorem chunk_round_trip_witness :
    joinSep nn (chunk_parts (S "aaaa\n\nbbbb") 6) = S "aaaa\n\nbbbb" :=
  (chunk_round_trip (S "aaaa\n\nbbbb") 6 (by decide)).1

/-- C2 counterexample: when a paragraph is split at line boundaries the
blank-line rejoin does not reconstruct the blob — the parts' bodies are
"aa", "aa", "bb" but the original had a single newline inside the first
paragraph. -/
theorem chunk_round_trip_cex :
    chunk_message (S "aa\naa\n\nbb") 5
      = [S "(Part 1/3)\n\naa", S "(Part 2/3)\n\naa", S "(Part 3/3)\n\nbb"]
    ∧ joinSep nn [S "aa", S "aa", S "bb"] ≠ S "aa\naa\n\nbb" := by
  decide

/-! ## Claim C7: the cardio override -/

/-- C7: on a day classified as cardio the main-workout block is exactly the
three fixed entries (Kettlebell Swings, DB Thrusters, Jump Rope) with
name, link, form-cue and prescription sub-lines, and the rendered message
does not depend on the plan's rows at all. -/
theorem cardio_override (df : List PlanRow) (day : Str)
    (h : classify_day day = S "cardio") :
    mainLines df day =
      [S "- *Kettlebell Swings*\n  https://www.google.com/search?q=site%3Amusclewiki.com+Kettlebell+Swings\n  Form Cue: Hinge; snap glutes; don’t squat.\n  Prescription: EMOM × 10 reps/min | Rest: balance of min",
       S "- *DB Thrusters*\n  https://www.google.com/search?q=site%3Amusclewiki.com+DB+Thrusters\n  Form Cue: Full squat then press overhead.\n  Prescription: EMOM × 8 reps/min | Rest: balance of min",
       S "- *Jump Rope*\n  https://www.google.com/search?q=site%3Amusclewiki.com+Jump+Rope\n  Form Cue: Light bounce; upright.\n  Prescription: EMOM × 20 skips/min | Rest: balance of min"]
    ∧ ∀ df' : List PlanRow,
        build_message_for_day df day = build_message_for_day df' day := by
  constructor
  · simp only [mainLines, h]
    rw [if_true]
    decide
  · intro df'
    simp [build_message_for_day, mainLines, h]

/-- C7 witness: a plan with a Squat row on a cardio day still renders the
three fixed entries. -/
theorem cardio_override_witness :
    mainLines [⟨some (S "Cardio"), S "Squat", S "Quads", [], []⟩] (S "Cardio")
      = [S "- *Kettlebell Swings*\n  https://www.google.com/search?q=site%3Amusclewiki.com+Kettlebell+Swings\n  Form Cue: Hinge; snap glutes; don’t squat.\n  Prescription: EMOM × 10 reps/min | Rest: balance of min",
         S "- *DB Thrusters*\n  https://www.google.com/search?q=site%3Amusclewiki.com+DB+Thrusters\n  Form Cue: Full squat then press overhead.\n  Prescription: EMOM × 8 reps/min | Rest: balance of min",
         S "- *Jump Rope*\n  https://www.google.com/search?q=site%3Amusclewiki.com+Jump+Rope\n  Form Cue: Light bounce; upright.\n  Prescription: EMOM × 20 skips/min | Rest: balance of min"] :=
  (cardio_override [⟨some (S "Cardio"), S "Squat", S "Quads", [], []⟩] (S "Cardio")
    (by decide)).1

/-! ## Claim C8: optional fragments and sub-lines of a rendered entry -/

lemma hexDigitChar_ne_newline (d : Nat) : hexDigitChar d ≠ '\n' := by
  unfold hexDigitChar
  rw [List.getD_eq_getElem?_getD]
  rcases h : (S "0123456789ABCDEF")[d]? with _ | c
  · simp [h]
  · have hm : c ∈ S "0123456789ABCDEF" := List.getElem?_mem h
    simp only [h, Option.getD_some]
    intro hceq
    rw [hceq] at hm
    exact absurd hm (by decide)

lemma quote_plus_no_newline (s : Str) : '\n' ∉ quote_plus s := by
  intro hmem
  unfold quote_plus at hmem
  rw [List.mem_flatMap] at hmem
  obtain ⟨c, _, hmem⟩ := hmem
  by_cases h1 : c = ' '
  · rw [if_pos h1, List.mem_singleton] at hmem
    exact absurd hmem (by decide)
  · rw [if_neg h1] at hmem
    by_cases h2 : isUrlSafe c = true
    · rw [if_pos h2, List.mem_singleton] at hmem
      rw [← hmem] at h2
      exact absurd h2 (by decide)
    · rw [if_neg h2, List.mem_flatMap] at hmem
      obtain ⟨b, _, hmem⟩ := hmem
      simp only [List.mem_cons, List.mem_singleton, List.not_mem_nil] at hmem
      rcases hmem with h | h | h
      · exact absurd h (by decide)
      · exact hexDigitChar_ne_newline (b / 16) h.symm
      · rcases h with h | h
        · exact hexDigitChar_ne_newline (b % 16) h.symm
        · exact h

lemma google_exercise_link_no_newline (ex : Str) :
    '\n' ∉ google_exercise_link ex := by
  intro hmem
  unfold google_exercise_link at hmem
  rcases List.mem_append.mp hmem with h | h
  · exact absurd h (by decide)
  · exact quote_plus_no_newline _ h

lemma mem_of_mem_pyStrip {c : Char} {s : Str} (h : c ∈ pyStrip s) : c ∈ s := by
  unfold pyStrip lstrip at h
  exact (List.dropWhile_sublist isPySpace).mem (mem_of_mem_rstrip h)

/-- `dict.get(k, d)` returns the default or some stored value. -/
lemma lookupD_cases (k : Str) (m : List (Str × Str)) (d : Str) :
    lookupD k m d = d ∨ ∃ pr ∈ m, pr.1 = k ∧ lookupD k m d = pr.2 := by
  induction m with
  | nil => exact Or.inl rfl
  | cons pr rest ih =>
    rcases pr with ⟨k', v⟩
    by_cases hk : k = k'
    · refine Or.inr ⟨(k', v), List.mem_cons_self _ _, hk.symm, ?_⟩
      simp [lookupD, hk]
    · rcases ih with h | ⟨pr2, hpr2, hk2, hv2⟩
      · refine Or.inl ?_
        simp only [lookupD, if_neg hk]
        exact h
      · refine Or.inr ⟨pr2, List.mem_cons_of_mem _ hpr2, hk2, ?_⟩
        simp only [lookupD, if_neg hk]
        exact hv2

/-- With all stored values non-empty, `.get(k, "")` is empty exactly when
the key is absent. -/
lemma lookupD_eq_nil_iff (k : Str) (m : List (Str × Str))
    (hv : ∀ pr ∈ m, pr.2 ≠ []) :
    (lookupD k m [] = [] ↔ lookupA k m = none) := by
  induction m with
  | nil => simp [lookupD, lookupA]
  | cons pr rest ih =>
    rcases pr with ⟨k', v⟩
    by_cases hk : k = k'
    · simp only [lookupD, lookupA, if_pos hk]
      have := hv (k', v) (List.mem_cons_self _ _)
      simp_all
    · simp only [lookupD, lookupA, if_neg hk]
      exact ih (fun q hq => hv q (List.mem_cons_of_mem _ hq))

/-- A successful `.get(k)` returns a stored value. -/
lemma lookupP_mem (k : Str) (m : List (Str × Prescription)) (p : Prescription)
    (h : lookupP k m = some p) : ∃ pr ∈ m, pr.2 = p := by
  induction m with
  | nil => simp [lookupP] at h
  | cons pr rest ih =>
    rcases pr with ⟨k', v⟩
    by_cases hk : k = k'
    · simp only [lookupP, if_pos hk, Option.some.injEq] at h
      exact ⟨(k', v), List.mem_cons_self _ _, h⟩
    · simp only [lookupP, if_neg hk] at h
      obtain ⟨pr2, hpr2, hv2⟩ := ih h
      exact ⟨pr2, List.mem_cons_of_mem _ hpr2, hv2⟩

lemma form_cue_no_newline (k : Str) : '\n' ∉ lookupD k FORM_CUES [] := by
  rcases lookupD_cases k FORM_CUES [] with h | ⟨pr, hpr, _, h⟩
  · simp [h]
  · rw [h]
    have : ∀ pr ∈ FORM_CUES, '\n' ∉ pr.2 := by decide
    exact this pr hpr

lemma splitN_joinSep (ls : List Str) (hnl : ∀ l ∈ ls, '\n' ∉ l) (hne : ls ≠ []) :
    splitN (joinSep ['\n'] ls) = ls := by
  induction ls with
  | nil => exact absurd rfl hne
  | cons x t ih =>
    cases t with
    | nil => simp [joinSep, splitN_single (hnl x (List.mem_cons_self x []))]
    | cons y u =>
      have hx : '\n' ∉ x := hnl x (List.mem_cons_self _ _)
      have hstep : joinSep ['\n'] (x :: y :: u) = x ++ '\n' :: joinSep ['\n'] (y :: u) := by
        simp [joinSep]
      rw [hstep, splitN, splitOnChar_append_sep _ hx]
      have hrest := ih (fun l hl => hnl l (List.mem_cons_of_mem _ hl)) (by simp)
      rw [splitN] at hrest
      rw [hrest]

lemma no_newline_append {a b : Str} (ha : '\n' ∉ a) (hb : '\n' ∉ b) :
    '\n' ∉ a ++ b := by
  intro hm
  rcases List.mem_append.mp hm with h | h
  · exact ha h
  · exact hb h

/-- C8: the lines of a rendered main-workout entry are exactly: the bullet
line, the link line, the targets line carrying the " | Secondary: X" /
" | Tertiary: X" fragments exactly when those fields are non-empty, then a
form-cue line exactly when the exercise is in `FORM_CUES` and a
prescription line exactly when it is in `EXERCISE_PRESCRIPTIONS`. -/
theorem entry_sublines (r : PlanRow)
    (hex1 : '\n' ∉ r.exercise) (hp1 : '\n' ∉ r.primary)
    (hs1 : '\n' ∉ r.secondary) (ht1 : '\n' ∉ r.tertiary) :
    splitN (entryForRow r) =
      ([S "- *" ++ pyStrip r.exercise ++ S "*",
        S "  " ++ google_exercise_link (pyStrip r.exercise),
        S "  Primary: " ++ r.primary
          ++ (if r.secondary = [] then [] else S " | Secondary: " ++ r.secondary)
          ++ (if r.tertiary = [] then [] else S " | Tertiary: " ++ r.tertiary)]
        ++ (if lookupD (pyStrip r.exercise) FORM_CUES [] = [] then []
            else [S "  Form Cue: " ++ lookupD (pyStrip r.exercise) FORM_CUES []])
        ++ (match lookupP (pyStrip r.exercise) EXERCISE_PRESCRIPTIONS with
            | some p => [S "  Prescription: " ++ p.sets ++ S " × " ++ p.reps
                ++ S " | Rest: " ++ p.rest]
            | none => []))
    ∧ (lookupD (pyStrip r.exercise) FORM_CUES [] = []
        ↔ lookupA (pyStrip r.exercise) FORM_CUES = none) := by
  refine ⟨?_, lookupD_eq_nil_iff _ FORM_CUES (by decide)⟩
  have hexs : '\n' ∉ pyStrip r.exercise := fun hm => hex1 (mem_of_mem_pyStrip hm)
  have hl1 : '\n' ∉ S "- *" ++ pyStrip r.exercise ++ S "*" :=
    no_newline_append (no_newline_append (by decide) hexs) (by decide)
  have hl2 : '\n' ∉ S "  " ++ google_exercise_link (pyStrip r.exercise) :=
    no_newline_append (by decide) (google_exercise_link_no_newline _)
  have hl3 : '\n' ∉ S "  Primary: " ++ r.primary
      ++ (if r.secondary = [] then [] else S " | Secondary: " ++ r.secondary)
      ++ (if r.tertiary = [] then [] else S " | Tertiary: " ++ r.tertiary) := by
    refine no_newline_append (no_newline_append (no_newline_append (by decide) hp1) ?_) ?_
    · by_cases h : r.secondary = []
      · simp [h]
      · rw [if_neg h]
        exact no_newline_append (by decide) hs1
    · by_cases h : r.tertiary = []
      · simp [h]
      · rw [if_neg h]
        exact no_newline_append (by decide) ht1
  have hlc : '\n' ∉ S "  Form Cue: " ++ lookupD (pyStrip r.exercise) FORM_CUES [] :=
    no_newline_append (by decide) (form_cue_no_newline _)
  have hpresfact : ∀ pr ∈ EXERCISE_PRESCRIPTIONS,
      '\n' ∉ pr.2.sets ∧ '\n' ∉ pr.2.reps ∧ '\n' ∉ pr.2.rest := by decide
  have hEq : entryForRow r = joinSep ['\n']
      ([S "- *" ++ pyStrip r.exercise ++ S "*",
        S "  " ++ google_exercise_link (pyStrip r.exercise),
        S "  Primary: " ++ r.primary
          ++ (if r.secondary = [] then [] else S " | Secondary: " ++ r.secondary)
          ++ (if r.tertiary = [] then [] else S " | Tertiary: " ++ r.tertiary)]
        ++ (if lookupD (pyStrip r.exercise) FORM_CUES [] = [] then []
            else [S "  Form Cue: " ++ lookupD (pyStrip r.exercise) FORM_CUES []])
        ++ (match lookupP (pyStrip r.exercise) EXERCISE_PRESCRIPTIONS with
            | some p => [S "  Prescription: " ++ p.sets ++ S " × " ++ p.reps
                ++ S " | Rest: " ++ p.rest]
            | none => [])) := by
    simp only [entryForRow]
    by_cases hsec : r.secondary = [] <;>
      by_cases hter : r.tertiary = [] <;>
      by_cases hcue : lookupD (pyStrip r.exercise) FORM_CUES [] = [] <;>
      rcases hpres : lookupP (pyStrip r.exercise) EXERCISE_PRESCRIPTIONS with _ | p <;>
      simp [hsec, hter, hcue, hpres, joinSep, List.append_assoc,
        show S "*\n  " = S "*" ++ '\n' :: S "  " from rfl,
        show S "\n  Primary: " = '\n' :: S "  Primary: " from rfl,
        show S "\n  Form Cue: " = '\n' :: S "  Form Cue: " from rfl,
        show S "\n  Prescription: " = '\n' :: S "  Prescription: " from rfl]
  rw [hEq]
  apply splitN_joinSep
  · intro l hl
    rcases List.mem_append.mp hl with hl | hlp
    · rcases List.mem_append.mp hl with hl | hlc2
      · simp only [List.mem_cons, List.mem_singleton] at hl
        rcases hl with rfl | rfl | rfl | hl
        · exact hl1
        · exact hl2
        · exact hl3
        · exact absurd hl (List.not_mem_nil l)
      · by_cases hcue : lookupD (pyStrip r.exercise) FORM_CUES [] = []
        · rw [if_pos hcue] at hlc2
          exact absurd hlc2 (List.not_mem_nil l)
        · rw [if_neg hcue, List.mem_singleton] at hlc2
          rw [hlc2]
          exact hlc
    · rcases hpres : lookupP (pyStrip r.exercise) EXERCISE_PRESCRIPTIONS with _ | p
      · rw [hpres] at hlp
        exact absurd hlp (List.not_mem_nil l)
      · rw [hpres, List.mem_singleton] at hlp
        obtain ⟨pr, hpr, hv⟩ := lookupP_mem _ _ _ hpres
        obtain ⟨hns, hnr, hnt⟩ := hpresfact pr hpr
        rw [hv] at hns hnr hnt
        rw [hlp]
        refine no_newline_append (no_newline_append (no_newline_append
          (no_newline_append (no_newline_append (by decide) hns) (by decide)) hnr)
          (by decide)) hnt
  · simp

/-- C8 witness: a Push Up row with a secondary target and no tertiary. -/
theorem entry_sublines_witness :
    splitN (entryForRow ⟨some (S "Push Day"), S " Push Up ", S "Chest", S "Triceps", []⟩) =
      ([S "- *" ++ pyStrip (S " Push Up ") ++ S "*",
        S "  " ++ google_exercise_link (pyStrip (S " Push Up ")),
        S "  Primary: " ++ S "Chest"
          ++ (if (S "Triceps" : Str) = [] then [] else S " | Secondary: " ++ S "Triceps")
          ++ (if ([] : Str) = [] then [] else S " | Tertiary: " ++ [])]
        ++ (if lookupD (pyStrip (S " Push Up ")) FORM_CUES [] = [] then []
            else [S "  Form Cue: " ++ lookupD (pyStrip (S " Push Up ")) FORM_CUES []])
        ++ (match lookupP (pyStrip (S " Push Up ")) EXERCISE_PRESCRIPTIONS with
            | some p => [S "  Prescription: " ++ p.sets ++ S " × " ++ p.reps
                ++ S " | Rest: " ++ p.rest]
            | none => []))
    ∧ (lookupD (pyStrip (S " Push Up ")) FORM_CUES [] = []
        ↔ lookupA (pyStrip (S " Push Up ")) FORM_CUES = none) :=
  entry_sublines ⟨some (S "Push Day"), S " Push Up ", S "Chest", S "Triceps", []⟩
    (by decide) (by decide) (by decide) (by decide)

/-! ## Claim C5: alias-map machinery — decimal strings -/

lemma pyNatStrAux_fuel (f1 : Nat) :
    ∀ (f2 n : Nat), n < f1 → n < f2 → pyNatStrAux f1 n = pyNatStrAux f2 n := by
  induction f1 with
  | zero => intro f2 n h1 _; omega
  | succ f ih =>
    intro f2 n h1 h2
    cases f2 with
    | zero => omega
    | succ g =>
      simp only [pyNatStrAux]
      by_cases hn : n < 10
      · simp [hn]
      · rw [if_neg hn, if_neg hn]
        have hd : n / 10 < n := Nat.div_lt_self (by omega) (by omega)
        rw [ih g (n / 10) (by omega) (by omega)]

lemma pyNatStr_unfold (n : Nat) :
    pyNatStr n = if n < 10 then [Nat.digitChar n]
      else pyNatStr (n / 10) ++ [Nat.digitChar (n % 10)] := by
  by_cases hn : n < 10
  · simp [pyNatStr, pyNatStrAux, hn]
  · have hd : n / 10 < n := Nat.div_lt_self (by omega) (by omega)
    rw [if_neg hn]
    show pyNatStrAux (n + 1) n = _
    simp only [pyNatStrAux, if_neg hn]
    rw [pyNatStrAux_fuel n (n / 10 + 1) (n / 10) (by omega) (by omega)]
    rfl

lemma pyNatStr_ne_nil (n : Nat) : pyNatStr n ≠ [] := by
  rw [pyNatStr_unfold]
  by_cases hn : n < 10
  · simp [hn]
  · simp [hn]

lemma pyNatStr_digits (n : Nat) : ∀ c ∈ pyNatStr n, c.isDigit = true := by
  induction n using Nat.strong_induction_on with
  | _ n ih =>
    rw [pyNatStr_unfold]
    by_cases hn : n < 10
    · rw [if_pos hn]
      intro c hc
      rw [List.mem_singleton.mp hc]
      have : ∀ m : Nat, m < 10 → (Nat.digitChar m).isDigit = true := by decide
      exact this n hn
    · rw [if_neg hn]
      intro c hc
      rcases List.mem_append.mp hc with h | h
      · exact ih (n / 10) (Nat.div_lt_self (by omega) (by omega)) c h
      · rw [List.mem_singleton.mp h]
        have : ∀ m : Nat, m < 10 → (Nat.digitChar m).isDigit = true := by decide
        exact this (n % 10) (Nat.mod_lt _ (by omega))

/-- Numeric value of a digit string (used only to invert `pyNatStr`). -/
def digitsVal (ds : Str) : Nat := ds.foldl (fun a c => 10 * a + (c.toNat - 48)) 0

lemma digitsVal_go (a : Nat) (ds : Str) :
    ds.foldl (fun a c => 10 * a + (c.toNat - 48)) a
      = a * 10 ^ ds.length + digitsVal ds := by
  induction ds generalizing a with
  | nil => simp [digitsVal]
  | cons c t ih =>
    simp only [List.foldl_cons, digitsVal] at *
    rw [ih (10 * a + (c.toNat - 48)), ih (10 * 0 + (c.toNat - 48))]
    ring_nf
    simp [List.length_cons, pow_succ]
    ring

lemma digitsVal_append_last (ds : Str) (c : Char) :
    digitsVal (ds ++ [c]) = 10 * digitsVal ds + (c.toNat - 48) := by
  unfold digitsVal
  rw [List.foldl_append]
  rfl

lemma digitsVal_pyNatStr (n : Nat) : digitsVal (pyNatStr n) = n := by
  induction n using Nat.strong_induction_on with
  | _ n ih =>
    rw [pyNatStr_unfold]
    by_cases hn : n < 10
    · rw [if_pos hn]
      have : ∀ m : Nat, m < 10 → digitsVal [Nat.digitChar m] = m := by decide
      exact this n hn
    · rw [if_neg hn, digitsVal_append_last,
        ih (n / 10) (Nat.div_lt_self (by omega) (by omega))]
      have : ∀ m : Nat, m < 10 → (Nat.digitChar m).toNat - 48 = m := by decide
      rw [this (n % 10) (Nat.mod_lt _ (by omega))]
      omega

lemma pyNatStr_inj {m n : Nat} (h : pyNatStr m = pyNatStr n) : m = n := by
  have := congrArg digitsVal h
  rwa [digitsVal_pyNatStr, digitsVal_pyNatStr] at this

lemma nodup_subset_length {l m : List Str} (h1 : l.Nodup) (h2 : l ⊆ m) :
    l.length ≤ m.length := by
  classical
  calc l.length = l.toFinset.card := (List.toFinset_card_of_nodup h1).symm
  _ ≤ m.toFinset.card := Finset.card_le_card (fun x hx => by
      rw [List.mem_toFinset] at hx ⊢
      exact h2 hx)
  _ ≤ m.length := m.toFinset_card_le

lemma takeWhile_letters_digits (t d : Str) (ht : ∀ c ∈ t, c.isDigit = false)
    (hd : ∀ c ∈ d, c.isDigit = true) :
    (t ++ d).takeWhile (fun c => !c.isDigit) = t
    ∧ (t ++ d).dropWhile (fun c => !c.isDigit) = d := by
  induction t with
  | nil =>
    simp only [List.nil_append]
    cases d with
    | nil => simp
    | cons c u =>
      have hc := hd c (List.mem_cons_self c u)
      constructor
      · rw [List.takeWhile_cons_of_neg (by simp [hc])]
      · rw [List.dropWhile_cons_of_neg (by simp [hc])]
  | cons c t' ih =>
    have hc : (fun c : Char => !c.isDigit) c = true := by
      simp [ht c (List.mem_cons_self c t')]
    obtain ⟨ih1, ih2⟩ := ih (fun x hx => ht x (List.mem_cons_of_mem c hx))
    constructor
    · rw [List.cons_append,
        List.takeWhile_cons_of_pos (p := fun c : Char => !c.isDigit) hc, ih1]
    · rw [List.cons_append,
        List.dropWhile_cons_of_pos (p := fun c : Char => !c.isDigit) hc, ih2]

lemma letters_digits_inj {t1 d1 t2 d2 : Str}
    (h1 : ∀ c ∈ t1, c.isDigit = false) (h2 : ∀ c ∈ d1, c.isDigit = true)
    (h3 : ∀ c ∈ t2, c.isDigit = false) (h4 : ∀ c ∈ d2, c.isDigit = true)
    (h : t1 ++ d1 = t2 ++ d2) : t1 = t2 ∧ d1 = d2 := by
  obtain ⟨e1, e2⟩ := takeWhile_letters_digits t1 d1 h1 h2
  obtain ⟨e3, e4⟩ := takeWhile_letters_digits t2 d2 h3 h4
  constructor
  · rw [← e1, ← e3, h]
  · rw [← e2, ← e4, h]

lemma cats5_no_digit : ∀ t ∈ cats5, ∀ c ∈ t, c.isDigit = false := by decide

/-- A numbered alias is never a bare category name. -/
lemma numbered_ne_bare {t1 t2 : Str} (h1 : t1 ∈ cats5) (h2 : t2 ∈ cats5) (c : Nat) :
    t1 ++ pyNatStr c ≠ t2 := by
  intro h
  have h' : t1 ++ pyNatStr c = t2 ++ [] := by rw [List.append_nil]; exact h
  have := letters_digits_inj (cats5_no_digit t1 h1) (pyNatStr_digits c)
    (cats5_no_digit t2 h2) (by intro x hx; exact absurd hx (List.not_mem_nil x)) h'
  exact pyNatStr_ne_nil c this.2

/-- Numbered aliases determine their category and counter. -/
lemma numbered_inj {t1 t2 : Str} (h1 : t1 ∈ cats5) (h2 : t2 ∈ cats5) {c1 c2 : Nat}
    (h : t1 ++ pyNatStr c1 = t2 ++ pyNatStr c2) : t1 = t2 ∧ c1 = c2 := by
  have := letters_digits_inj (cats5_no_digit _ h1) (pyNatStr_digits c1)
    (cats5_no_digit _ h2) (pyNatStr_digits c2) h
  exact ⟨this.1, pyNatStr_inj this.2⟩

/-- The `alias_to_day` entries the loop appends while consuming `ds`,
starting from counters `counts`. -/
def aliasEntries (counts : Str → Nat) : List Str → List (Str × Str)
  | [] => []
  | d :: ds =>
    ((classify_day d ++ pyNatStr (counts (classify_day d) + 1), d)
        :: (if counts (classify_day d) + 1 = 1 then [(classify_day d, d)] else []))
      ++ aliasEntries (bumpCount counts (classify_day d) (counts (classify_day d) + 1)) ds

/-- The `rows` entries the loop appends while consuming `ds`. -/
def rowEntries (counts : Str → Nat) : List Str → List (Str × Str)
  | [] => []
  | d :: ds =>
    (classify_day d ++ pyNatStr (counts (classify_day d) + 1), d)
      :: rowEntries (bumpCount counts (classify_day d) (counts (classify_day d) + 1)) ds

/-- The loop is append-only: its result is the initial accumulators plus
the entries generated from the remaining days. -/
lemma buildAliasAux_closed :
    ∀ (ds : List Str) (counts : Str → Nat) (a2d rows : List (Str × Str)),
      buildAliasAux counts a2d rows ds
        = (a2d ++ aliasEntries counts ds, rows ++ rowEntries counts ds) := by
  intro ds
  induction ds with
  | nil => intro counts a2d rows; simp [buildAliasAux, aliasEntries, rowEntries]
  | cons d ds ih =>
    intro counts a2d rows
    simp only [buildAliasAux, aliasEntries, rowEntries]
    rw [ih]
    simp [Prod.ext_iff, List.append_assoc]

/-- Shape of every key present in the map while the counters stand at
`counts`: a bare occurring category (only possible while its counter is
still 0) or a numbered alias whose counter exceeds the current one. -/
def KeyShape (counts : Str → Nat) (k : Str) : Prop :=
  ∃ t ∈ cats5, (k = t ∧ counts t = 0)
    ∨ ∃ c : Nat, counts t + 1 ≤ c ∧ k = t ++ pyNatStr c

lemma bumpCount_le (counts : Str → Nat) (typ : Str) :
    ∀ t', counts t' ≤ bumpCount counts typ (counts typ + 1) t' := by
  intro t'
  unfold bumpCount
  by_cases h : t' = typ
  · rw [if_pos h, h]; omega
  · rw [if_neg h]

lemma bumpCount_self (counts : Str → Nat) (typ : Str) :
    bumpCount counts typ (counts typ + 1) typ = counts typ + 1 := by
  unfold bumpCount
  rw [if_pos rfl]

lemma bumpCount_other (counts : Str → Nat) (typ t : Str) (h : t ≠ typ) :
    bumpCount counts typ (counts typ + 1) t = counts t := by
  unfold bumpCount
  rw [if_neg h]

lemma aliasEntries_keyShape :
    ∀ (ds : List Str) (counts : Str → Nat) (k : Str),
      k ∈ (aliasEntries counts ds).map Prod.fst → KeyShape counts k := by
  intro ds
  induction ds with
  | nil => intro counts k hk; simp [aliasEntries] at hk
  | cons d ds ih =>
    intro counts k hk
    have htyp := classify_day_mem_cats5 d
    simp only [aliasEntries, List.map_append, List.map_cons, List.mem_append,
      List.mem_cons] at hk
    rcases hk with (hk | hk) | hk
    · exact ⟨classify_day d, htyp,
        Or.inr ⟨counts (classify_day d) + 1, le_refl _, hk⟩⟩
    · by_cases hc : counts (classify_day d) + 1 = 1
      · rw [if_pos hc] at hk
        simp only [List.map_cons, List.map_nil, List.mem_singleton] at hk
        exact ⟨classify_day d, htyp, Or.inl ⟨hk, by omega⟩⟩
      · rw [if_neg hc] at hk
        simp at hk
    · obtain ⟨t, ht5, hcase⟩ := ih _ k hk
      have hmono := bumpCount_le counts (classify_day d) t
      refine ⟨t, ht5, ?_⟩
      rcases hcase with ⟨hkt, h0⟩ | ⟨c, hc, hkc⟩
      · exact Or.inl ⟨hkt, by omega⟩
      · exact Or.inr ⟨c, by omega, hkc⟩

lemma aliasEntries_nodup :
    ∀ (ds : List Str) (counts : Str → Nat),
      ((aliasEntries counts ds).map Prod.fst).Nodup := by
  intro ds
  induction ds with
  | nil => intro counts; simp [aliasEntries]
  | cons d ds ih =>
    intro counts
    have htyp := classify_day_mem_cats5 d
    have hct := bumpCount_self counts (classify_day d)
    simp only [aliasEntries, List.map_append, List.map_cons]
    rw [List.nodup_append]
    refine ⟨?_, ih _, ?_⟩
    · rw [List.nodup_cons]
      constructor
      · by_cases hc : counts (classify_day d) + 1 = 1
        · rw [if_pos hc]
          simp only [List.map_cons, List.map_nil, List.mem_singleton]
          exact numbered_ne_bare htyp htyp _
        · rw [if_neg hc]
          simp
      · by_cases hc : counts (classify_day d) + 1 = 1
        · rw [if_pos hc]; simp
        · rw [if_neg hc]; simp
    · intro k hk hk2
      have hshape := aliasEntries_keyShape ds _ k hk2
      simp only [List.mem_cons] at hk
      rcases hk with rfl | hk
      · obtain ⟨t, ht5, hcase⟩ := hshape
        rcases hcase with ⟨hkt, h0⟩ | ⟨c, hcge, hkc⟩
        · exact numbered_ne_bare htyp ht5 _ hkt
        · obtain ⟨hteq, hceq⟩ := numbered_inj htyp ht5 hkc
          rw [← hteq, hct] at hcge
          omega
      · by_cases hc : counts (classify_day d) + 1 = 1
        · rw [if_pos hc] at hk
          simp only [List.map_cons, List.map_nil, List.mem_singleton] at hk
          subst hk
          obtain ⟨t, ht5, hcase⟩ := hshape
          rcases hcase with ⟨hkt, h0⟩ | ⟨c, hcge, hkc⟩
          · rw [← hkt, bumpCount_self] at h0
            omega
          · exact numbered_ne_bare ht5 htyp c hkc.symm
        · rw [if_neg hc] at hk
          simp at hk

lemma aliasEntries_length :
    ∀ (ds : List Str) (counts : Str → Nat),
      (aliasEntries counts ds).length
        = ds.length
          + ((aliasEntries counts ds).filter (fun pr => decide (pr.1 ∈ cats5))).length := by
  intro ds
  induction ds with
  | nil => intro counts; simp [aliasEntries]
  | cons d ds ih =>
    intro counts
    have htyp := classify_day_mem_cats5 d
    have hnotin : (classify_day d ++ pyNatStr (counts (classify_day d) + 1)) ∉ cats5 :=
      fun hmem => numbered_ne_bare htyp hmem _ rfl
    by_cases hc : counts (classify_day d) + 1 = 1
    · simp only [aliasEntries, if_pos hc]
      simp [List.filter_append, List.filter_cons, hnotin, htyp,
        ih (bumpCount counts (classify_day d) (counts (classify_day d) + 1))]
      omega
    · simp only [aliasEntries, if_neg hc]
      simp [List.filter_append, List.filter_cons, hnotin,
        ih (bumpCount counts (classify_day d) (counts (classify_day d) + 1))]
      omega

lemma aliasEntries_bare_iff :
    ∀ (ds : List Str) (counts : Str → Nat) (t : Str), t ∈ cats5 → ∀ dd : Str,
      ((t, dd) ∈ aliasEntries counts ds
        ↔ (counts t = 0
            ∧ (ds.filter (fun d => decide (classify_day d = t))).head? = some dd)) := by
  intro ds
  induction ds with
  | nil => intro counts t ht dd; simp [aliasEntries]
  | cons d ds ih =>
    intro counts t ht dd
    have htyp := classify_day_mem_cats5 d
    by_cases hdt : classify_day d = t
    · have hfilter : List.filter (fun d' => decide (classify_day d' = t)) (d :: ds)
          = d :: List.filter (fun d' => decide (classify_day d' = t)) ds := by
        simp [List.filter_cons, hdt]
      constructor
      · intro hmem
        simp only [aliasEntries, List.mem_append, List.mem_cons] at hmem
        rcases hmem with (heq | hbare) | hrec
        · have hfst : t = classify_day d ++ pyNatStr (counts (classify_day d) + 1) :=
            congrArg Prod.fst heq
          exact absurd hfst.symm (numbered_ne_bare htyp ht _)
        · by_cases hc : counts (classify_day d) + 1 = 1
          · rw [if_pos hc] at hbare
            simp only [List.mem_singleton, Prod.mk.injEq] at hbare
            refine ⟨by rw [← hdt]; omega, ?_⟩
            rw [hfilter]
            simp [hbare.2]
          · rw [if_neg hc] at hbare
            simp at hbare
        · have hres := (ih _ t ht dd).mp hrec
          rw [← hdt, bumpCount_self] at hres
          exact absurd hres.1 (by omega)
      · rintro ⟨h0, hhd⟩
        rw [hfilter] at hhd
        simp only [List.head?_cons, Option.some.injEq] at hhd
        simp only [aliasEntries, List.mem_append, List.mem_cons]
        left
        right
        rw [← hdt] at h0
        rw [if_pos (by omega)]
        simp only [List.mem_singleton, Prod.mk.injEq]
        exact ⟨hdt.symm, hhd.symm⟩
    · have hfilter : List.filter (fun d' => decide (classify_day d' = t)) (d :: ds)
          = List.filter (fun d' => decide (classify_day d' = t)) ds := by
        simp [List.filter_cons, hdt]
      have hne2 : t ≠ classify_day d := fun h => hdt h.symm
      constructor
      · intro hmem
        simp only [aliasEntries, List.mem_append, List.mem_cons] at hmem
        rcases hmem with (heq | hbare) | hrec
        · have hfst : t = classify_day d ++ pyNatStr (counts (classify_day d) + 1) :=
            congrArg Prod.fst heq
          exact absurd hfst.symm (numbered_ne_bare htyp ht _)
        · by_cases hc : counts (classify_day d) + 1 = 1
          · rw [if_pos hc] at hbare
            simp only [List.mem_singleton, Prod.mk.injEq] at hbare
            exact absurd hbare.1.symm hdt
          · rw [if_neg hc] at hbare
            simp at hbare
        · have hres := (ih _ t ht dd).mp hrec
          rw [bumpCount_other counts (classify_day d) t hne2] at hres
          rw [hfilter]
          exact hres
      · rintro ⟨h0, hhd⟩
        rw [hfilter] at hhd
        simp only [aliasEntries, List.mem_append, List.mem_cons]
        right
        refine (ih _ t ht dd).mpr ?_
        rw [bumpCount_other counts (classify_day d) t hne2]
        exact ⟨h0, hhd⟩

lemma aliasEntries_keys_iff :
    ∀ (ds : List Str) (counts : Str → Nat) (k : Str),
      (k ∈ (aliasEntries counts ds).map Prod.fst
        ↔ k ∈ (rowEntries counts ds).map Prod.fst
          ∨ ∃ t ∈ cats5, k = t ∧ counts t = 0 ∧ t ∈ ds.map classify_day) := by
  intro ds
  induction ds with
  | nil => intro counts k; simp [aliasEntries, rowEntries]
  | cons d ds ih =>
    intro counts k
    have htyp := classify_day_mem_cats5 d
    simp only [aliasEntries, rowEntries, List.map_append, List.map_cons,
      List.mem_append, List.mem_cons]
    constructor
    · rintro ((rfl | hbare) | hrec)
      · exact Or.inl (Or.inl rfl)
      · by_cases hc : counts (classify_day d) + 1 = 1
        · rw [if_pos hc] at hbare
          simp only [List.map_cons, List.map_nil, List.mem_singleton] at hbare
          subst hbare
          exact Or.inr ⟨classify_day d, htyp, rfl, by omega, by simp⟩
        · rw [if_neg hc] at hbare
          simp at hbare
      · rcases (ih _ k).mp hrec with hrow | ⟨t, ht5, hk, h0, hmem⟩
        · exact Or.inl (Or.inr hrow)
        · by_cases hteq : t = classify_day d
          · rw [hteq, bumpCount_self] at h0
            omega
          · rw [bumpCount_other counts (classify_day d) t hteq] at h0
            exact Or.inr ⟨t, ht5, hk, h0, by simp [hmem]⟩
    · rintro ((rfl | hrow) | ⟨t, ht5, hk, h0, hmem⟩)
      · exact Or.inl (Or.inl rfl)
      · exact Or.inr ((ih _ k).mpr (Or.inl hrow))
      · by_cases hteq : t = classify_day d
        · refine Or.inl (Or.inr ?_)
          have h0d : counts (classify_day d) = 0 := by rw [← hteq]; exact h0
          rw [if_pos (by omega), hk, hteq]
          exact List.mem_map_of_mem Prod.fst (List.mem_singleton.mpr rfl)
        · have hmem2 : t ∈ ds.map classify_day := by
            rcases hmem with h | h
            · exact absurd h hteq
            · exact h
          refine Or.inr ((ih _ k).mpr (Or.inr ⟨t, ht5, hk, ?_, hmem2⟩))
          rw [bumpCount_other counts (classify_day d) t hteq]
          exact h0

lemma rowEntries_snd : ∀ (ds : List Str) (counts : Str → Nat),
    (rowEntries counts ds).map Prod.snd = ds := by
  intro ds
  induction ds with
  | nil => intro counts; simp [rowEntries]
  | cons d ds ih => intro counts; simp [rowEntries, ih]

lemma rowEntries_sub : ∀ (ds : List Str) (counts : Str → Nat),
    ∀ pr ∈ rowEntries counts ds, pr ∈ aliasEntries counts ds := by
  intro ds
  induction ds with
  | nil => intro counts pr h; simp [rowEntries] at h
  | cons d ds ih =>
    intro counts pr h
    simp only [rowEntries, List.mem_cons] at h
    simp only [aliasEntries, List.mem_append, List.mem_cons]
    rcases h with rfl | h
    · exact Or.inl (Or.inl rfl)
    · exact Or.inr (ih _ pr h)

/-- C5: the alias map has pairwise-distinct keys (each alias maps to
exactly one day); the rows list pairs every unique day, in order, with its
numbered alias, and each such pair is in the map; the map's keys are
exactly the numbered aliases plus one bare-category key per category that
occurs among the days; the map's size is the number of unique days plus
the number of bare entries (at most 5); and a bare category key maps to
the first day of that category. -/
theorem build_alias_map_props (col : List (Option Str)) :
    (((build_alias_map col).1.map Prod.fst).Nodup)
    ∧ ((build_alias_map col).2.map Prod.snd = ordered_unique_days col)
    ∧ (∀ pr ∈ (build_alias_map col).2, pr ∈ (build_alias_map col).1)
    ∧ (∀ k : Str, k ∈ (build_alias_map col).1.map Prod.fst
        ↔ (k ∈ (build_alias_map col).2.map Prod.fst
            ∨ ∃ t ∈ cats5, k = t ∧ t ∈ (ordered_unique_days col).map classify_day))
    ∧ ((build_alias_map col).1.length = (ordered_unique_days col).length
        + ((build_alias_map col).1.filter (fun pr => decide (pr.1 ∈ cats5))).length)
    ∧ (((build_alias_map col).1.filter (fun pr => decide (pr.1 ∈ cats5))).length ≤ 5)
    ∧ (∀ t ∈ cats5, ∀ dd : Str, ((t, dd) ∈ (build_alias_map col).1
        ↔ (((ordered_unique_days col).filter
            (fun d => decide (classify_day d = t))).head? = some dd))) := by
  have hclosed := buildAliasAux_closed (ordered_unique_days col) (fun _ => 0) [] []
  have h1 : (build_alias_map col).1
      = aliasEntries (fun _ => 0) (ordered_unique_days col) := by
    unfold build_alias_map
    rw [hclosed]
    simp
  have h2 : (build_alias_map col).2
      = rowEntries (fun _ => 0) (ordered_unique_days col) := by
    unfold build_alias_map
    rw [hclosed]
    simp
  rw [h1, h2]
  refine ⟨aliasEntries_nodup _ _, rowEntries_snd _ _, rowEntries_sub _ _, ?_, ?_, ?_, ?_⟩
  · intro k
    have hiff := aliasEntries_keys_iff (ordered_unique_days col) (fun _ => 0) k
    simpa using hiff
  · exact aliasEntries_length _ _
  · have hsub : List.Sublist
        (((aliasEntries (fun _ => 0) (ordered_unique_days col)).filter
          (fun pr => decide (pr.1 ∈ cats5))).map Prod.fst)
        ((aliasEntries (fun _ => 0) (ordered_unique_days col)).map Prod.fst) :=
      (List.filter_sublist _).map Prod.fst
    have hnd := List.Nodup.sublist hsub (aliasEntries_nodup (ordered_unique_days col) _)
    have hsubset : ∀ k ∈ ((aliasEntries (fun _ => 0) (ordered_unique_days col)).filter
        (fun pr => decide (pr.1 ∈ cats5))).map Prod.fst, k ∈ cats5 := by
      intro k hk
      obtain ⟨pr, hpr, rfl⟩ := List.mem_map.mp hk
      have := List.of_mem_filter hpr
      simpa using this
    calc ((aliasEntries (fun _ => 0) (ordered_unique_days col)).filter
        (fun pr => decide (pr.1 ∈ cats5))).length
        = (((aliasEntries (fun _ => 0) (ordered_unique_days col)).filter
            (fun pr => decide (pr.1 ∈ cats5))).map Prod.fst).length := by
          rw [List.length_map]
    _ ≤ cats5.length := nodup_subset_length hnd hsubset
    _ = 5 := rfl
  · intro t ht dd
    have hiff := aliasEntries_bare_iff (ordered_unique_days col) (fun _ => 0) t ht dd
    simpa using hiff

/-- C5 witness: a small plan with two pull days, a push day and a missing
cell — distinct alias keys, and "pull" resolves to the first pull day. -/
theorem build_alias_map_props_witness :
    (((build_alias_map [some (S "Pull Day"), some (S "Push Day"), none,
        some (S "Pull B")]).1.map Prod.fst).Nodup)
    ∧ ((S "pull", S "Pull Day") ∈ (build_alias_map [some (S "Pull Day"),
        some (S "Push Day"), none, some (S "Pull B")]).1) :=
  ⟨(build_alias_map_props [some (S "Pull Day"), some (S "Push Day"), none,
      some (S "Pull B")]).1,
   ((build_alias_map_props [some (S "Pull Day"), some (S "Push Day"), none,
      some (S "Pull B")]).2.2.2.2.2.2 (S "pull") (by decide) (S "Pull Day")).mpr
     (by decide)⟩
